import Mathlib

/-!
Verification of the Yucca preprocessing / reverse-preprocessing pipeline
(`yucca/preprocessing/YuccaPreprocessor.py`), shallow-embedded in Lean.

Arrays are embedded as a shape together with a total indexing function into
the rationals (standing for the floating-point values of the numpy arrays).
External library calls (`skimage.transform.resize`, `nibabel` reorientation,
`cc3d.connected_components`) are modelled: `resize` by an explicit
coordinate-scaling model or an oracle parameter, reorientation and connected
components by oracle parameters.  Helper functions of the repository that are
not part of the preprocessor file itself (`yuccalib` geometry utilities, the
normalizer) are modelled from the specification and marked as such.

Rational arithmetic is implemented by kernel-reducible operations on `ℚ`
(the library operations on `Rat` are `@[irreducible]`, which blocks
evaluation by `decide`).
-/

namespace Yucca

/-! ## Kernel-reducible rational arithmetic -/

def qadd (a b : ℚ) : ℚ := mkRat (a.num * b.den + b.num * a.den) (a.den * b.den)

def qsub (a b : ℚ) : ℚ := mkRat (a.num * b.den - b.num * a.den) (a.den * b.den)

def qmul (a b : ℚ) : ℚ := mkRat (a.num * b.num) (a.den * b.den)

def qdiv (a b : ℚ) : ℚ :=
  mkRat (a.num * (b.den : ℤ) * (if b.num < 0 then -1 else 1)) (a.den * b.num.natAbs)

def qle (a b : ℚ) : Bool := decide (a.num * (b.den : ℤ) ≤ b.num * (a.den : ℤ))

def qlt (a b : ℚ) : Bool := decide (a.num * (b.den : ℤ) < b.num * (a.den : ℤ))

def qabs (a : ℚ) : ℚ := mkRat (Int.ofNat a.num.natAbs) a.den

def qfloor (a : ℚ) : ℤ := Int.fdiv a.num a.den

def qofInt (n : ℤ) : ℚ := mkRat n 1

def qofNat (n : ℕ) : ℚ := mkRat (Int.ofNat n) 1

/-- `np.round`: round half to even (banker's rounding), as numpy does. -/
def npRound (q : ℚ) : ℤ :=
  let f := qfloor q
  let r := qsub q (qofInt f)
  if qlt r (mkRat 1 2) then f
  else if qlt (mkRat 1 2) r then f + 1
  else if f % 2 == 0 then f else f + 1

/-- `np.allclose` on two spacing vectors: elementwise
`abs (a - b) ≤ atol + rtol * abs b` with numpy defaults `rtol = 1e-5`,
`atol = 1e-8`. -/
def npAllclose (xs ys : List ℚ) : Bool :=
  xs.length == ys.length &&
    (List.zipWith
      (fun a b => qle (qabs (qsub a b)) (qadd (mkRat 1 100000000) (qmul (mkRat 1 100000) (qabs b))))
      xs ys).all id

/-! ## N-dimensional arrays -/

/-- An N-dimensional array: a shape together with a total indexing function.
Reads outside the shape are benign (the indexing function is total); the
operations below only read within bounds. -/
structure NDArr where
  shape : List ℕ
  data : List ℕ → ℚ

/-- `np.zeros(shape)`. -/
def zeros (shape : List ℕ) : NDArr := ⟨shape, fun _ => 0⟩

/-- All in-bounds indices of a shape, in C (row-major lexicographic) order. -/
def allIdx : List ℕ → List (List ℕ)
  | [] => [[]]
  | n :: rest => (List.range n).flatMap (fun i => (allIdx rest).map (i :: ·))

def inBounds (shape idx : List ℕ) : Bool :=
  shape.length == idx.length && (List.zipWith (fun n i => decide (i < n)) shape idx).all id

/-- Bounded extensional comparison of two arrays. -/
def arrBEq (a b : NDArr) : Bool :=
  a.shape == b.shape && (allIdx a.shape).all (fun idx => a.data idx == b.data idx)

/-- Three-argument `zipWith`, truncating at the shortest list. -/
def zip3With (f : α → β → γ → δ) : List α → List β → List γ → List δ
  | a :: as, b :: bs, c :: cs => f a b c :: zip3With f as bs cs
  | _, _, _ => []

/-- Numpy fancy indexing `xs[perm]` on an integer vector. -/
def permuteN (perm : List ℕ) (xs : List ℕ) : List ℕ := perm.map (fun p => xs.getD p 0)

/-- Numpy fancy indexing `xs[perm]` on a rational (spacing) vector. -/
def permuteQ (perm : List ℕ) (xs : List ℚ) : List ℚ := perm.map (fun p => xs.getD p 0)

/-- `a.transpose(perm)`: axis `j` of the result is axis `perm j` of `a`,
so the source index at axis `m` is the target index at position
`perm.indexOf m`. -/
def transposeArr (perm : List ℕ) (a : NDArr) : NDArr :=
  ⟨permuteN perm a.shape,
   fun idx => a.data ((List.range a.shape.length).map (fun m => idx.getD (perm.indexOf m) 0))⟩

/-- Basic slicing `a[st0:sp0, st1:sp1, ...]` with in-range starts/stops. -/
def sliceArr (starts stops : List ℕ) (a : NDArr) : NDArr :=
  ⟨List.zipWith (fun st sp => sp - st) starts stops,
   fun idx => a.data (List.zipWith (fun i st => i + st) idx starts)⟩

/-! ## Modelled external geometry helpers -/

/-- Modelled from the external library: `skimage.transform.resize(a, output_shape)`.
The model captures the shape contract (the result has exactly the requested
shape) and locality (each output voxel is read from the proportionally scaled
source coordinate); the interpolation order does not enter the model. -/
def resizeArr (outShape : List ℕ) (a : NDArr) : NDArr :=
  ⟨outShape,
   fun idx => a.data (zip3With (fun i o n => if o == 0 then 0 else i * n / o) idx outShape a.shape)⟩

/-- An implementation of `resize` as seen through its call sites: an output
shape, an interpolation order and an input, returning either the resized
array or an `OverflowError` (`.error ()`), which the external library may
raise for degenerate values. -/
def ResizeImpl : Type := List ℕ → ℕ → NDArr → Except Unit NDArr

/-- The non-overflowing instantiation: the concrete resize model. -/
def resizeOk : ResizeImpl := fun outShape _ a => .ok (resizeArr outShape a)

/-- The always-overflowing instantiation, for exercising the error path. -/
def resizeOverflow : ResizeImpl := fun _ _ _ => .error ()

/-- First components of a flat bounding box `[s0, e0, s1, e1, ...]`. -/
def boxStarts : List ℕ → List ℕ
  | s :: _ :: rest => s :: boxStarts rest
  | _ => []

/-- Second components of a flat bounding box `[s0, e0, s1, e1, ...]`. -/
def boxStops : List ℕ → List ℕ
  | _ :: e :: rest => e :: boxStops rest
  | _ => []

def boxSizes (box : List ℕ) : List ℕ :=
  List.zipWith (fun st sp => sp - st) (boxStarts box) (boxStops box)

/-- Coordinates along `axis` at which the array holds a value different from
the background value. -/
def fgCoords (a : NDArr) (bg : ℚ) (axis : ℕ) : List ℕ :=
  (List.range (a.shape.getD axis 0)).filter
    (fun coord => (allIdx a.shape).any (fun idx => idx.getD axis 0 == coord && !(a.data idx == bg)))

/-- Modelled from the spec: `yuccalib` `get_bbox_for_foreground` — the
smallest axis-aligned half-open box containing all voxels whose value differs
from the background value, flattened `[s0, e0, s1, e1, ...]`; `[0, 0]` pairs
when there is no foreground. -/
def get_bbox_for_foreground (a : NDArr) (bg : ℚ) : List ℕ :=
  (List.range a.shape.length).flatMap (fun ax =>
    let cs := fgCoords a bg ax
    match cs.min?, cs.max? with
    | some lo, some hi => [lo, hi + 1]
    | _, _ => [0, 0])

/-- Modelled from the spec: `yuccalib` `crop_to_box` — slice the array to the
given flat box. -/
def crop_to_box (a : NDArr) (box : List ℕ) : NDArr :=
  sliceArr (boxStarts box) (boxStops box) a

/-- Interleave per-axis before/after pad widths into the flat
`[b0, a0, b1, a1, ...]` layout consumed by `reverse_preprocessing`. -/
def interleavePad : List ℕ → List ℕ → List ℕ
  | b :: bs, a :: as => b :: a :: interleavePad bs as
  | _, _ => []

/-- Modelled from the spec: `yuccalib` `pad_to_size` — zero-pad up to
`target`, splitting each axis's slack half before (rounded down) and the rest
after, and return the explicit per-axis pad widths; a target that does not
dominate the current shape is a fatal configuration error. -/
def pad_to_size (a : NDArr) (target : List ℕ) : Except String (NDArr × List ℕ) :=
  if a.shape.length == target.length
      && (List.zipWith (fun c t => decide (c ≤ t)) a.shape target).all id then
    let before := List.zipWith (fun c t => (t - c) / 2) a.shape target
    let after := List.zipWith (fun c t => t - c - (t - c) / 2) a.shape target
    .ok (⟨target,
          fun idx =>
            if (zip3With (fun i b n => decide (b ≤ i ∧ i < b + n)) idx before a.shape).all id
            then a.data (List.zipWith (fun i b => i - b) idx before) else 0⟩,
         interleavePad before after)
  else .error "ConfigurationError: pad_to_size target smaller than current shape"

/-- Modelled from the spec: `yucca.preprocessing.normalization.normalizer` —
z-score standardization from the per-modality dataset statistics, or a
pass-through scheme; an unknown scheme name is a fatal configuration error. -/
def normalizer (a : NDArr) (scheme : String) (mean sd : ℚ) : Except String NDArr :=
  if scheme == "standardize" then
    .ok ⟨a.shape, fun idx => qdiv (qsub (a.data idx) mean) sd⟩
  else if scheme == "no_norm" then .ok a
  else .error "ConfigurationError: unknown normalization scheme"

/-! ## Plans, volumes and metadata records -/

/-- The static plan object (`self.plans`), as read by the preprocessor.
An empty `target_spacing` means "use the original spacing of the case";
`target_coordinate_system` is `none` when the key is missing. -/
structure Plan where
  target_spacing : List ℚ
  normalization_scheme : List String
  transpose_forward : List ℕ
  transpose_backward : List ℕ
  crop_to_nonzero : Bool
  target_coordinate_system : Option String
  classes : List ℚ
  data_dimensions : ℕ
  intensities : List (ℚ × ℚ)
  deriving DecidableEq

/-- A loaded `nibabel` volume: array data, voxel spacing, anatomical
orientation code, the validity flags of its qform/sform (the second
component of `get_qform(coded=True)` / `get_sform(coded=True)`), and the
header matrices as opaque payloads. -/
structure Volume where
  arr : NDArr
  spacing : List ℚ
  orientation : String
  qformCoded : Bool
  sformCoded : Bool
  qform : List (List ℚ)
  sform : List (List ℚ)
  affine : List (List ℚ)

/-- The `image_properties` dict produced by `preprocess_case_for_inference`.
Dict keys that the code only writes on some paths are `Option`-valued:
`none` means the key is absent from the dict. -/
structure ImageProperties where
  original_spacing : List ℚ
  original_shape : List ℕ
  qform : List (List ℚ)
  sform : List (List ℚ)
  reoriented : Bool
  original_orientation : Option String
  new_orientation : Option String
  affine : List (List ℚ)
  uncropped_shape : List ℕ
  nonzero_box : Option (List ℕ)
  cropped_shape : List ℕ
  resampled_transposed_shape : List ℕ
  padded_shape : List ℕ
  padding : List ℕ
  deriving DecidableEq

/-! ## `_resample_and_normalize_case` (lines 231-275) -/

/-- The per-modality normalize / rank-assert / transpose loop
(lines 243-250): `normalizer` then `images[i].transpose(transpose)`. -/
def normTransposeList (transpose : List ℕ) :
    List (NDArr × String × ℚ × ℚ) → Except String (List NDArr)
  | [] => .ok []
  | (img, scheme, mean, sd) :: rest => do
    let n ← normalizer img scheme mean sd
    if n.shape.length == transpose.length then do
      let ts ← normTransposeList transpose rest
      .ok (transposeArr transpose n :: ts)
    else .error "AssertionError: image and transpose axes do not match"

/-- The `try: resize ... except OverflowError: print(...)` pattern of lines
262-272: an overflow is caught, only reported, and the array is left
unresampled. -/
def resizeCaught (rz : ResizeImpl) (outShape : List ℕ) (order : ℕ) (img : NDArr) : NDArr :=
  match rz outShape order img with
  | .ok r => r
  | .error _ => img

/-- `YuccaPreprocessor._resample_and_normalize_case`: normalize and transpose
every modality, compute the target shape from the transposed spacings, and
resample every modality (cubic) and the label (nearest-neighbor) to it.
Numpy fancy indexing `spacing[transpose]` with an out-of-range index raises,
hence the explicit length guards. -/
def resample_and_normalize_case (plan : Plan) (rz : ResizeImpl) (images : List NDArr)
    (seg : Option NDArr) (norm_op : List String) (transpose : List ℕ)
    (original_spacing target_spacing : List ℚ) :
    Except String (List NDArr × Option NDArr) := do
  if images.length == norm_op.length && norm_op.length == plan.intensities.length then do
    let imgsT ← normTransposeList transpose
      (zip3With (fun a b c => (a, b, c)) images norm_op plan.intensities)
    match imgsT with
    | [] => .error "IndexError: images is empty"
    | im0 :: _ =>
      if transpose.all (fun p => decide (p < original_spacing.length))
          && transpose.all (fun p => decide (p < target_spacing.length)) then
        let shape_t := im0.shape
        let original_spacing_t := permuteQ transpose original_spacing
        let target_spacing_t := permuteQ transpose target_spacing
        let target_shape :=
          List.zipWith (fun r n => (npRound (qmul r (qofNat n))).toNat)
            (List.zipWith qdiv original_spacing_t target_spacing_t) shape_t
        let imgsR := imgsT.map (resizeCaught rz target_shape 3)
        match seg with
        | none => .ok (imgsR, none)
        | some s =>
          let sT := transposeArr transpose s
          .ok (imgsR, some (resizeCaught rz target_shape 0 sT))
      else .error "IndexError: spacing index out of range"
  else .error "AssertionError: number of images, normalization operations and intensities does not match"

/-! ## `preprocess_case_for_inference` (lines 277-346) -/

/-- An implementation of `yuccalib` `reorient_nib_image`, taken as an oracle:
original orientation code, target orientation code, volume in, volume out. -/
def ReorientImpl : Type := String → String → Volume → Volume

/-- `np.stack(images)[np.newaxis]`: batch the per-modality arrays into shape
`(1, channels, spatial...)`. -/
def stackBatch (images : List NDArr) : NDArr :=
  ⟨1 :: images.length :: (images.headD (zeros [])).shape,
   fun idx =>
     match idx with
     | b :: c :: rest => if b == 0 then (images.getD c (zeros [])).data rest else 0
     | _ => 0⟩

/-- The header-validity gate and reorientation of lines 303-314.  Note the
Python operator precedence in the condition of line 304: `q or (s and tcs)`.
When the gate is taken, `self.plans[...]` raises on a missing key; otherwise
the volumes are used as loaded and only `reoriented = False` is recorded. -/
def inferReorient (plan : Plan) (reorient : ReorientImpl) (images : List Volume)
    (img0 : Volume) : Except String (List Volume × Bool × Option String × Option String) :=
  if img0.qformCoded || (img0.sformCoded && plan.target_coordinate_system.isSome) then
    match plan.target_coordinate_system with
    | none => .error "KeyError: target_coordinate_system"
    | some tcs =>
      let imgs := images.map (reorient img0.orientation tcs)
      .ok (imgs, true, some img0.orientation, some ((imgs.headD img0).orientation))
  else .ok (images, false, none, none)

/-- The conditional foreground cropping of lines 321-325: the box is
computed from the first modality with background 0 and applied to all. -/
def inferCrop (plan : Plan) (arrs : List NDArr) : List NDArr × Option (List ℕ) :=
  if plan.crop_to_nonzero then
    let box := get_bbox_for_foreground (arrs.headD (zeros [])) 0
    (arrs.map (crop_to_box · box), some box)
  else (arrs, none)

/-- `YuccaPreprocessor.preprocess_case_for_inference`, on already loaded
volumes.  Follows lines 290-346: record spacing/shape/header fields, gate
reorientation on the header validity flags, record the uncropped shape,
conditionally crop to the foreground bounding box,
normalize/transpose/resample, pad to the patch size, and stack to a
`(1, c, spatial...)` batch. -/
def inferBody (plan : Plan) (rz : ResizeImpl) (reorient : ReorientImpl)
    (images : List Volume) (img0 : Volume) (patch_size : List ℕ) :
    Except String (NDArr × ImageProperties) := do
  let original_spacing := img0.spacing
  let original_shape := img0.arr.shape
  if original_shape.length == 2 || original_shape.length == 3 then do
    let (imagesO, reoriented, original_orientation, new_orientation) ←
      inferReorient plan reorient images img0
    let affine := (imagesO.headD img0).affine
    let arrs := imagesO.map (·.arr)
    let uncropped_shape := (arrs.headD (zeros [])).shape
    let (arrsC, nonzero_box) := inferCrop plan arrs
    let cropped_shape := (arrsC.headD (zeros [])).shape
    let (arrsR, _) ← resample_and_normalize_case plan rz arrsC none
      plan.normalization_scheme plan.transpose_forward original_spacing plan.target_spacing
    let resampled_transposed_shape := (arrsR.headD (zeros [])).shape
    let padded ← arrsR.mapM (fun im => pad_to_size im patch_size)
    let padding := (padded.map Prod.snd).getLastD []
    let padded_shape := ((padded.map Prod.fst).headD (zeros [])).shape
    let stacked := stackBatch (padded.map Prod.fst)
    .ok (stacked,
         ⟨original_spacing, original_shape, img0.qform, img0.sform, reoriented,
          original_orientation, new_orientation, affine, uncropped_shape, nonzero_box,
          cropped_shape, resampled_transposed_shape, padded_shape, padding⟩)
  else .error "AssertionError: images must be either 2D or 3D for preprocessing"

def preprocess_case_for_inference (plan : Plan) (rz : ResizeImpl) (reorient : ReorientImpl)
    (images : List Volume) (patch_size : List ℕ) :
    Except String (NDArr × ImageProperties) :=
  match images with
  | [] => .error "IndexError: empty image list"
  | img0 :: _ => inferBody plan rz reorient images img0 patch_size

/-! ## `reverse_preprocessing` (lines 348-400) -/

/-- The pad-stripping slices of lines 379-382: three axes when the flat pad
list has more than 5 entries, two axes when fewer, untouched otherwise. -/
def stripPadding (pad : List ℕ) (image : NDArr) : NDArr :=
  if pad.length > 5 then
    sliceArr [pad.getD 0 0, pad.getD 2 0, pad.getD 4 0]
      [image.shape.getD 0 0 - pad.getD 1 0, image.shape.getD 1 0 - pad.getD 3 0,
       image.shape.getD 2 0 - pad.getD 5 0] image
  else if pad.length < 5 then
    sliceArr [pad.getD 0 0, pad.getD 2 0]
      [image.shape.getD 0 0 - pad.getD 1 0, image.shape.getD 1 0 - pad.getD 3 0] image
  else image

/-- The `images[b, c]` sub-array. -/
def channelAt (a : NDArr) (b c : ℕ) : NDArr :=
  ⟨a.shape.drop 2, fun idx => a.data (b :: c :: idx)⟩

/-- Is `idx` inside the flat half-open box? -/
def inBoxB (box : List ℕ) (idx : List ℕ) : Bool :=
  (zip3With (fun i s e => decide (s ≤ i ∧ i < e)) idx (boxStarts box) (boxStops box)).all id

/-- `canvas[b, c][slices] = image` for the box slices: update the `(b, c)`
slab of the canvas inside the box with the image, offset by the box starts. -/
def writeChannelBox (canvas : NDArr) (b c : ℕ) (box : List ℕ) (img : NDArr) : NDArr :=
  ⟨canvas.shape,
   fun idx =>
     match idx with
     | b' :: c' :: rest =>
       if b' == b && c' == c && inBoxB box rest then
         img.data (List.zipWith (fun i s => i - s) rest (boxStarts box))
       else canvas.data idx
     | _ => canvas.data idx⟩

/-- The per-channel body of the `reverse_preprocessing` loop up to the third
assert (lines 375-391): check the padded shape, strip the recorded pad
widths, check the resampled/transposed shape, resize back to the cropped
shape in transposed order (cubic, uncaught on overflow here), transpose
backward and check the cropped shape. -/
def processChannel (plan : Plan) (rz : ResizeImpl) (props : ImageProperties)
    (image : NDArr) : Except String NDArr := do
  if image.shape == props.padded_shape then
    let image := stripPadding props.padding image
    if image.shape == props.resampled_transposed_shape then
      match rz (permuteN plan.transpose_forward props.cropped_shape) 3 image with
      | .error _ => .error "OverflowError"
      | .ok r =>
        let image := transposeArr plan.transpose_backward r
        if image.shape == props.cropped_shape then .ok image
        else .error "AssertionError: Reversing cropping"
    else .error "AssertionError: Reversing resampling and transposition"
  else .error "AssertionError: Reversing padding"

/-- The re-seating step of lines 393-399: with cropping enabled, write the
channel into the canvas at the recorded box (a missing `nonzero_box` key or a
flat box of length exactly 5 raises, an out-of-range batch or channel index
raises); with cropping disabled the canvas is left untouched. -/
def maybeReseat (plan : Plan) (props : ImageProperties) (canvas : NDArr) (b c : ℕ)
    (image : NDArr) : Except String NDArr :=
  if plan.crop_to_nonzero then
    match props.nonzero_box with
    | some bbox =>
      if bbox.length == 5 then .error "NameError: slices"
      else if b < canvas.shape.getD 0 0 && c < canvas.shape.getD 1 0 then
        .ok (writeChannelBox canvas b c bbox image)
      else .error "IndexError: canvas index out of range"
    | none => .error "KeyError: nonzero_box"
  else .ok canvas

/-- `YuccaPreprocessor.reverse_preprocessing` (lines 348-400): allocate a
zero canvas of shape `(1, nclasses, *uncropped_shape)` and, for every batch
item and channel, undo padding, resampling and transposition, then re-seat
into the canvas when cropping is enabled. -/
def reverse_preprocessing (plan : Plan) (rz : ResizeImpl) (images : NDArr)
    (props : ImageProperties) : Except String NDArr :=
  let nclasses := plan.classes.length
  let canvas0 := zeros (1 :: nclasses :: props.uncropped_shape)
  (List.range (images.shape.getD 0 0)).foldlM (fun canvas b =>
    (List.range (images.shape.getD 1 0)).foldlM (fun canvas c => do
      let img ← processChannel plan rz props (channelAt images b c)
      maybeReseat plan props canvas b c img) canvas) canvas0

/-! ## `_preprocess_train_subject` (lines 91-229) -/

/-- The `image_props` record pickled for a training case (lines 107-217).
The `crop_to_nonzero` key holds the box when cropping is enabled and the
plan's `False` flag otherwise, modelled as an `Option`. -/
structure TrainProps where
  image_files : List String
  segmentation_file : String
  crop_to_nonzero : Option (List ℕ)
  original_spacing : List ℚ
  original_size : List ℕ
  original_orientation : String
  new_spacing : List ℚ
  new_size : List ℕ
  new_direction : String
  foreground_locations : List (List ℕ)
  n_cc : ℕ
  size_cc : List ℚ

/-- The content of a persisted artifact: the stacked `.npy` array or the
`.pkl` metadata record. -/
inductive FileContent where
  | npy (arr : NDArr)
  | pkl (props : TrainProps)

/-- The target directory of the preprocessor, as a path-indexed store.
New writes shadow older entries. -/
def FS : Type := List (String × FileContent)

def isfile (fs : FS) (p : String) : Bool := fs.any (fun e => e.1 == p)

def saveFile (fs : FS) (p : String) (c : FileContent) : FS := (p, c) :: fs

/-- Character-list prefix test, used to model `str.startswith`. -/
def listPre : List Char → List Char → Bool
  | [], _ => true
  | _, [] => false
  | a :: as, b :: bs => a == b && listPre as bs

/-- Modelled from the Python `str.startswith` used in the modality-path
filter of line 106 (the `os.path.split` basename step is left to the caller:
paths stand for their basenames). -/
def strStartsWith (s pre : String) : Bool := listPre pre.data s.data

/-- The per-modality registration checks of lines 135-146: every modality
against the first one. -/
def validateEach (img0 : Volume) : List Volume → Except String Unit
  | [] => .ok ()
  | im :: rest =>
    if img0.arr.shape == im.arr.shape then
      if npAllclose img0.spacing im.spacing then
        if img0.orientation == im.orientation then validateEach img0 rest
        else .error "AssertionError: Directions do not match between modalities"
      else .error "AssertionError: Spacings do not match between modalities"
    else .error "AssertionError: Sizes do not match between modalities"

/-- The consistency checks of lines 115-146, run unless
`disable_unittests` is set: at least one image, the first volume has the
dimensionality declared by the plan, image and label agree on shape, spacing
(within `np.allclose` tolerance) and orientation, and all modalities agree
with the first one. -/
def validateTrain (plan : Plan) (images : List Volume) (seg : Volume) :
    Except String Unit :=
  match images with
  | [] => .error "AssertionError: found no images"
  | img0 :: _ =>
    if img0.arr.shape.length == plan.data_dimensions then
      if img0.arr.shape == seg.arr.shape then
        if npAllclose img0.spacing seg.spacing then
          if img0.orientation == seg.orientation then
            if images.length > 1 then validateEach img0 images else .ok ()
          else .error "AssertionError: Directions do not match"
        else .error "AssertionError: Spacings do not match"
      else .error "AssertionError: Sizes do not match"
    else .error "AssertionError: image should be shape (x, y(, z))"

/-- The value set of an array: `np.unique`. -/
def uniqueVals (a : NDArr) : List ℚ := ((allIdx a.shape).map a.data).dedup

/-- `np.all(np.isin(actual_labels, expected_labels))` of lines 171-175. -/
def labelsOk (seg : NDArr) (classes : List ℚ) : Bool :=
  (uniqueVals seg).all (fun v => classes.any (fun c => c == v))

/-- The conditional reorientation of lines 156-168: reorient all volumes to
the plan's target coordinate system exactly when the first volume has a
coded qform or sform, recording the applied orientations; otherwise use the
volumes as loaded and record `INVALID`.  A missing plan key raises when the
gate is taken (`self.plans[...]` lookup). -/
def maybeReorientTrain (plan : Plan) (reorient : ReorientImpl) (images : List Volume)
    (seg : Volume) : Except String (List NDArr × NDArr × String × String) :=
  match images with
  | [] => .error "IndexError: no images"
  | img0 :: _ =>
    if img0.qformCoded || img0.sformCoded then
      match plan.target_coordinate_system with
      | none => .error "KeyError: target_coordinate_system"
      | some tcs =>
        .ok (images.map (fun im => (reorient img0.orientation tcs im).arr),
             (reorient img0.orientation tcs seg).arr, img0.orientation, tcs)
    else .ok (images.map (·.arr), seg.arr, "INVALID", "INVALID")

/-- `np.vstack((np.array(images), np.array(seg)[np.newaxis]))` of line 194. -/
def stackWithSeg (images : List NDArr) (seg : NDArr) : NDArr :=
  let all := images ++ [seg]
  ⟨all.length :: (images.headD seg).shape,
   fun idx =>
     match idx with
     | c :: rest => (all.getD c (zeros [])).data rest
     | [] => 0⟩

/-- Elements at positions `0, n, 2n, ...` — the `[::n]` stride of line 199. -/
def takeEvery (n : ℕ) (l : List α) : List α :=
  (l.enum.filter (fun e => e.1 % n == 0)).map Prod.snd

/-- Product of a spacing vector: `np.prod(target_spacing)`. -/
def prodQ (xs : List ℚ) : ℚ := xs.foldl qmul 1

/-- An implementation of `cc3d.connected_components(..., connectivity=26,
return_N=True)`, taken as an oracle: the number of components and the voxel
counts per component (the `np.unique(..., return_counts=True)` tail). -/
def CCImpl : Type := NDArr → ℕ × List ℕ

/-- The conditional cropping of lines 177-185: crop all modalities and the
label to the foreground box of the first modality; the `crop_to_nonzero`
metadata key holds the box when enabled. -/
def trainCrop (plan : Plan) (imgsA : List NDArr) (segA : NDArr) :
    Except String (List NDArr × NDArr × Option (List ℕ)) :=
  if plan.crop_to_nonzero then
    match imgsA with
    | [] => .error "IndexError: no images"
    | a0 :: _ =>
      let box := get_bbox_for_foreground a0 0
      .ok (imgsA.map (crop_to_box · box), crop_to_box segA box, some box)
  else .ok (imgsA, segA, none)

/-- The work of `_preprocess_train_subject` past the already-exists check
(lines 101-229): resolve modality paths by prefix, load, validate unless
disabled, pick the target spacing (the plan's, or the case's own when the
plan gives none), conditionally reorient, check the label value set against
the plan's classes (unconditionally), conditionally crop to the foreground
box of the first modality, resample/normalize, stack, extract foreground
statistics, and persist array and metadata.  Any failure aborts the case
before anything is written. -/
def preprocess_train_core (plan : Plan) (rz : ResizeImpl) (reorient : ReorientImpl)
    (cc : CCImpl) (load : String → Volume) (imagepaths : List String)
    (target_dir subject_id : String) (disable_unittests : Bool) (fs : FS) :
    Except String FS := do
  let arraypath := target_dir ++ "/" ++ subject_id ++ ".npy"
  let picklepath := target_dir ++ "/" ++ subject_id ++ ".pkl"
  let paths := imagepaths.filter (fun p => strStartsWith p (subject_id ++ "_"))
  let images := paths.map load
  let segpath := "labelsTr/" ++ subject_id ++ ".nii.gz"
  let seg := load segpath
  let _ ← (if disable_unittests then pure () else validateTrain plan images seg)
  match images with
  | [] => .error "IndexError: no images"
  | img0 :: _ =>
    let original_spacing := img0.spacing
    let original_size := img0.arr.shape
    let target_spacing :=
      if plan.target_spacing.length != 0 then plan.target_spacing else original_spacing
    let (imgsA, segA, original_orientation, final_direction) ←
      maybeReorientTrain plan reorient images seg
    if labelsOk segA plan.classes then do
      let (imgsC, segC, cropRec) ← trainCrop plan imgsA segA
      let (imgsR, segR) ← resample_and_normalize_case plan rz imgsC (some segC)
        plan.normalization_scheme plan.transpose_forward original_spacing target_spacing
      match imgsR, segR with
      | r0 :: rs, some segF =>
        let stacked := stackWithSeg (r0 :: rs) segF
        let foreground_locs :=
          takeEvery 10 ((allIdx segF.shape).filter (fun i => !(segF.data i == 0)))
        let (ncc, counts) := cc segF
        let object_sizes :=
          if ncc == 0 then [] else counts.map (fun k => qmul (qofNat k) (prodQ target_spacing))
        let final_size := r0.shape
        let props : TrainProps :=
          ⟨paths, segpath, cropRec, original_spacing, original_size, original_orientation,
           permuteQ plan.transpose_forward target_spacing, final_size, final_direction,
           foreground_locs, ncc, object_sizes⟩
        .ok (saveFile (saveFile fs arraypath (.npy stacked)) picklepath (.pkl props))
      | _, _ => .error "IndexError: resampling returned no arrays"
    else .error ("AssertionError: Unexpected labels found for " ++ subject_id)

/-- `YuccaPreprocessor._preprocess_train_subject` as a filesystem
transformer: skip entirely when both artifacts already exist (lines 98-100),
otherwise run the pipeline; a failed case leaves the store untouched and
reports the error. -/
def preprocess_train_subject (plan : Plan) (rz : ResizeImpl) (reorient : ReorientImpl)
    (cc : CCImpl) (load : String → Volume) (imagepaths : List String)
    (target_dir subject_id : String) (disable_unittests : Bool) (fs : FS) :
    FS × Option String :=
  let arraypath := target_dir ++ "/" ++ subject_id ++ ".npy"
  let picklepath := target_dir ++ "/" ++ subject_id ++ ".pkl"
  if isfile fs arraypath && isfile fs picklepath then (fs, none)
  else
    match preprocess_train_core plan rz reorient cc load imagepaths target_dir subject_id
        disable_unittests fs with
    | .ok fs' => (fs', none)
    | .error e => (fs, some e)

/-! ## `reverse_preprocessing` with an explicit array store

To state the frame property of `reverse_preprocessing` (its only in-place
write targets the freshly allocated canvas), the same code is threaded
through an explicit store of arrays: the predictions live at an index of the
store, `np.zeros` appends a fresh cell, and every `canvas[b, c][...] = ...`
statement becomes a `List.set` at the canvas cell. -/

abbrev Store : Type := List NDArr

def reverse_preprocessing_store (plan : Plan) (rz : ResizeImpl) (st : Store)
    (predsIdx : ℕ) (props : ImageProperties) : Store × Except String ℕ :=
  let preds := st.getD predsIdx (zeros [])
  let nclasses := plan.classes.length
  let canvasIdx := st.length
  let st1 := st ++ [zeros (1 :: nclasses :: props.uncropped_shape)]
  let res := (List.range (preds.shape.getD 0 0)).foldlM (fun (cur : Store) b =>
    (List.range (preds.shape.getD 1 0)).foldlM (fun (cur : Store) c => do
      let img ← processChannel plan rz props (channelAt preds b c)
      let canvas := cur.getD canvasIdx (zeros [])
      (maybeReseat plan props canvas b c img).map (fun cv => cur.set canvasIdx cv)) cur) st1
  match res with
  | .ok st' => (st', .ok canvasIdx)
  | .error e => (st1, .error e)

/-! ## Basic lemmas about the array operations -/

/-- A decidable check that `b` is the inverse permutation of `f`. -/
def isInvPerm (f b : List ℕ) : Bool :=
  f.length == b.length &&
    (List.range b.length).all
      (fun i => decide (b.getD i 0 < f.length) && f.getD (b.getD i 0) 0 == i)

theorem permuteN_length (perm xs : List ℕ) : (permuteN perm xs).length = perm.length := by
  simp [permuteN]

theorem permuteQ_length (perm : List ℕ) (xs : List ℚ) :
    (permuteQ perm xs).length = perm.length := by
  simp [permuteQ]

theorem transposeArr_shape (perm : List ℕ) (a : NDArr) :
    (transposeArr perm a).shape = permuteN perm a.shape := rfl

theorem resizeArr_shape (outShape : List ℕ) (a : NDArr) :
    (resizeArr outShape a).shape = outShape := rfl

theorem sliceArr_shape (starts stops : List ℕ) (a : NDArr) :
    (sliceArr starts stops a).shape = List.zipWith (fun st sp => sp - st) starts stops := rfl

theorem permuteN_getD (perm xs : List ℕ) (i : ℕ) (hi : i < perm.length) :
    (permuteN perm xs).getD i 0 = xs.getD (perm.getD i 0) 0 := by
  unfold permuteN
  simp [List.getD_eq_getElem?_getD, List.getElem?_map, List.getElem?_eq_getElem hi]

/-- Undoing a forward transpose of the shape with the recorded backward
permutation restores the original shape. -/
theorem permuteN_inv (f b s : List ℕ) (hperm : isInvPerm f b = true)
    (hlen : s.length = f.length) : permuteN b (permuteN f s) = s := by
  simp only [isInvPerm, Bool.and_eq_true, beq_iff_eq, List.all_eq_true] at hperm
  obtain ⟨hfb, hall⟩ := hperm
  apply List.ext_getElem
  · simp [permuteN, hfb, hlen]
  intro i hi hi'
  have hib : i < b.length := by simpa [permuteN] using hi
  have hmem : i ∈ List.range b.length := List.mem_range.mpr hib
  have h2 := hall i hmem
  have hlt' : b.getD i 0 < f.length := of_decide_eq_true h2.1
  have heq' : f.getD (b.getD i 0) 0 = i := h2.2
  have h1 : (permuteN b (permuteN f s))[i] = (permuteN f s).getD (b.getD i 0) 0 := by
    have : (permuteN b (permuteN f s))[i] =
        (permuteN b (permuteN f s)).getD i 0 := by
      simp [List.getD_eq_getElem?_getD, List.getElem?_eq_getElem hi]
    rw [this, permuteN_getD]
    exact hib
  rw [h1, permuteN_getD _ _ _ hlt', heq']
  simp [List.getD_eq_getElem?_getD, List.getElem?_eq_getElem hi']

theorem zipWith_zipWith_left (f : α → β → γ) (g : γ → δ → ε)
    (as : List α) (bs : List β) (cs : List δ) :
    List.zipWith g (List.zipWith f as bs) cs =
      zip3With (fun a b c => g (f a b) c) as bs cs := by
  induction as generalizing bs cs with
  | nil => simp [zip3With]
  | cons a as ih =>
    cases bs with
    | nil => simp [zip3With]
    | cons b bs =>
      cases cs with
      | nil => simp [zip3With]
      | cons c cs => simp [zip3With, ih]

theorem zip3With_length (f : α → β → γ → δ) (as : List α) (bs : List β) (cs : List γ) :
    (zip3With f as bs cs).length = min (min as.length bs.length) cs.length := by
  induction as generalizing bs cs with
  | nil => simp [zip3With]
  | cons a as ih =>
    cases bs with
    | nil => simp [zip3With]
    | cons b bs =>
      cases cs with
      | nil => simp [zip3With]
      | cons c cs => simp [zip3With, ih]; omega

theorem normalizer_shape (a : NDArr) (scheme : String) (mean sd : ℚ) (n : NDArr)
    (h : normalizer a scheme mean sd = .ok n) : n.shape = a.shape := by
  unfold normalizer at h
  split at h
  · cases h; rfl
  · split at h
    · cases h; rfl
    · cases h

theorem except_bind_ok (a : α) (f : α → Except ε β) : (Except.ok a >>= f) = f a := rfl

/-! ## The pad-strip round trip at the shape level -/

/-- The shape of `stripPadding pad img`, as a function of the input shape. -/
def stripShape (pad s : List ℕ) : List ℕ :=
  if pad.length > 5 then
    List.zipWith (fun st sp => sp - st) [pad.getD 0 0, pad.getD 2 0, pad.getD 4 0]
      [s.getD 0 0 - pad.getD 1 0, s.getD 1 0 - pad.getD 3 0, s.getD 2 0 - pad.getD 5 0]
  else if pad.length < 5 then
    List.zipWith (fun st sp => sp - st) [pad.getD 0 0, pad.getD 2 0]
      [s.getD 0 0 - pad.getD 1 0, s.getD 1 0 - pad.getD 3 0]
  else s

theorem stripPadding_shape (pad : List ℕ) (img : NDArr) :
    (stripPadding pad img).shape = stripShape pad img.shape := by
  unfold stripPadding stripShape
  split
  · rfl
  · split
    · rfl
    · rfl

/-- The per-axis pad widths recorded by `pad_to_size`. -/
def padBefore (c t : List ℕ) : List ℕ := List.zipWith (fun ci ti => (ti - ci) / 2) c t

def padAfter (c t : List ℕ) : List ℕ :=
  List.zipWith (fun ci ti => ti - ci - (ti - ci) / 2) c t

/-- Stripping the recorded pad widths from an array of the padded (target)
shape recovers the pre-pad shape, in two dimensions. -/
theorem stripShape_round2 (c0 c1 t0 t1 : ℕ) (h0 : c0 ≤ t0) (h1 : c1 ≤ t1) :
    stripShape (interleavePad (padBefore [c0, c1] [t0, t1]) (padAfter [c0, c1] [t0, t1]))
      [t0, t1] = [c0, c1] := by
  simp [stripShape, interleavePad, padBefore, padAfter, List.getD]
  omega

/-- Stripping the recorded pad widths from an array of the padded (target)
shape recovers the pre-pad shape, in three dimensions. -/
theorem stripShape_round3 (c0 c1 c2 t0 t1 t2 : ℕ) (h0 : c0 ≤ t0) (h1 : c1 ≤ t1)
    (h2 : c2 ≤ t2) :
    stripShape
      (interleavePad (padBefore [c0, c1, c2] [t0, t1, t2]) (padAfter [c0, c1, c2] [t0, t1, t2]))
      [t0, t1, t2] = [c0, c1, c2] := by
  simp [stripShape, interleavePad, padBefore, padAfter, List.getD]
  omega

theorem pad_to_size_ok (a : NDArr) (target : List ℕ) (p : NDArr × List ℕ)
    (h : pad_to_size a target = .ok p) :
    p.1.shape = target ∧ p.2 = interleavePad (padBefore a.shape target) (padAfter a.shape target)
      ∧ a.shape.length = target.length
      ∧ (List.zipWith (fun c t => decide (c ≤ t)) a.shape target).all id = true := by
  unfold pad_to_size at h
  split at h
  · cases h
    refine ⟨rfl, rfl, ?_, ?_⟩
    · rename_i hg
      rw [Bool.and_eq_true] at hg
      exact beq_iff_eq.mp hg.1
    · rename_i hg
      rw [Bool.and_eq_true] at hg
      exact hg.2
  · cases h

/-! ## Characterizing the canvas writes of `reverse_preprocessing` -/

theorem writeChannelBox_shape (cv : NDArr) (b c : ℕ) (box : List ℕ) (img : NDArr) :
    (writeChannelBox cv b c box img).shape = cv.shape := rfl

/-- The pure fold of per-channel canvas writes at batch item 0. -/
def foldWrites (box : List ℕ) (g : ℕ → NDArr) (canvas : NDArr) (cs : List ℕ) : NDArr :=
  cs.foldl (fun cv c => writeChannelBox cv 0 c box (g c)) canvas

theorem foldWrites_shape (box : List ℕ) (g : ℕ → NDArr) (canvas : NDArr) (cs : List ℕ) :
    (foldWrites box g canvas cs).shape = canvas.shape := by
  induction cs generalizing canvas with
  | nil => rfl
  | cons c0 cs ih => rw [foldWrites, List.foldl_cons, ← foldWrites, ih, writeChannelBox_shape]

/-- Where each voxel of the folded canvas comes from: the matching channel
write inside the box, the initial canvas elsewhere. -/
theorem foldWrites_data (box : List ℕ) (g : ℕ → NDArr) (canvas : NDArr) (cs : List ℕ)
    (b' c' : ℕ) (rest : List ℕ) :
    (foldWrites box g canvas cs).data (b' :: c' :: rest) =
      if b' = 0 ∧ c' ∈ cs ∧ inBoxB box rest = true then
        (g c').data (List.zipWith (fun i s => i - s) rest (boxStarts box))
      else canvas.data (b' :: c' :: rest) := by
  induction cs generalizing canvas with
  | nil => simp [foldWrites]
  | cons c0 cs ih =>
    rw [foldWrites, List.foldl_cons, ← foldWrites, ih]
    by_cases hb : b' = 0
    · by_cases hmem : c' ∈ cs
      · by_cases hbox : inBoxB box rest = true
        · simp [hb, hmem, hbox]
        · simp [hb, hmem, hbox, writeChannelBox]
      · by_cases hc0 : c' = c0
        · by_cases hbox : inBoxB box rest = true
          · simp [hb, hmem, hc0, hbox, writeChannelBox]
          · simp [hb, hmem, hc0, hbox, writeChannelBox]
        · simp [hb, hmem, hc0, writeChannelBox]
    · simp [hb, writeChannelBox]

/-- An `Except` fold whose steps are all shape-preserving channel writes is
the pure fold of those writes. -/
theorem foldlM_writes (step : NDArr → ℕ → Except String NDArr) (box : List ℕ)
    (g : ℕ → NDArr) (shape0 : List ℕ) (cs : List ℕ)
    (hstep : ∀ cv c, cv.shape = shape0 → c ∈ cs →
      step cv c = .ok (writeChannelBox cv 0 c box (g c))) :
    ∀ canvas : NDArr, canvas.shape = shape0 →
      cs.foldlM step canvas = .ok (foldWrites box g canvas cs) := by
  induction cs with
  | nil => intro canvas _; rfl
  | cons c0 cs ih =>
    intro canvas hshape
    rw [List.foldlM_cons, hstep canvas c0 hshape (List.mem_cons_self c0 cs), except_bind_ok]
    rw [foldWrites, List.foldl_cons, ← foldWrites]
    exact ih (fun cv c h1 h2 => hstep cv c h1 (List.mem_cons_of_mem c0 h2)) _
      (by rw [writeChannelBox_shape, hshape])

/-! ## Inverting successful runs of the pipeline stages -/

theorem except_bind_error (e : ε) (f : α → Except ε β) :
    ((Except.error e : Except ε α) >>= f) = .error e := rfl

theorem mapM_ok (f : α → Except ε β) :
    ∀ (l : List α) (out : List β), l.mapM f = .ok out →
      List.Forall₂ (fun a b => f a = .ok b) l out := by
  intro l
  induction l with
  | nil => intro out h; cases h; exact List.Forall₂.nil
  | cons a l ih =>
    intro out h
    rw [List.mapM_cons] at h
    cases hf : f a with
    | error e => rw [hf, except_bind_error] at h; cases h
    | ok b =>
      rw [hf, except_bind_ok] at h
      cases hl : l.mapM f with
      | error e => rw [hl, except_bind_error] at h; cases h
      | ok bs =>
        rw [hl, except_bind_ok] at h
        cases h
        exact List.Forall₂.cons hf (ih bs hl)

/-- Every output of the normalize/transpose loop is the transposed
normalization of the corresponding input, so its shape is the permuted input
shape. -/
theorem normTransposeList_ok (tp : List ℕ) :
    ∀ (l : List (NDArr × String × ℚ × ℚ)) (out : List NDArr),
      normTransposeList tp l = .ok out →
        List.Forall₂ (fun trip b => b.shape = permuteN tp trip.1.shape
          ∧ b.shape.length = tp.length) l out := by
  intro l
  induction l with
  | nil => intro out h; cases h; exact List.Forall₂.nil
  | cons trip l ih =>
    intro out h
    obtain ⟨img, scheme, mean, sd⟩ := trip
    rw [normTransposeList] at h
    cases hn : normalizer img scheme mean sd with
    | error e => rw [hn, except_bind_error] at h; cases h
    | ok n =>
      rw [hn, except_bind_ok] at h
      split at h
      · cases hl : normTransposeList tp l with
        | error e => rw [hl, except_bind_error] at h; cases h
        | ok ts =>
          rw [hl, except_bind_ok] at h
          cases h
          refine List.Forall₂.cons ⟨?_, ?_⟩ (ih ts hl)
          · rw [transposeArr_shape, normalizer_shape img scheme mean sd n hn]
          · rw [transposeArr_shape, permuteN_length]
      · cases h

/-- Inversion of a successful `_resample_and_normalize_case` run into its
canonical form: the normalized/transposed modalities, all resized (with the
overflow-catching wrapper) to the target shape computed from the first
transposed shape, and the label transposed and resized likewise. -/
theorem resample_ok_inv (plan : Plan) (rz : ResizeImpl) (images : List NDArr)
    (seg : Option NDArr) (nop : List String) (tp : List ℕ) (os ts : List ℚ)
    (out : List NDArr × Option NDArr)
    (h : resample_and_normalize_case plan rz images seg nop tp os ts = .ok out) :
    ∃ (im0 : NDArr) (restT : List NDArr),
      normTransposeList tp (zip3With (fun a b c => (a, b, c)) images nop plan.intensities)
        = .ok (im0 :: restT)
      ∧ (images.length = nop.length ∧ nop.length = plan.intensities.length)
      ∧ ((tp.all (fun p => decide (p < os.length))
          && tp.all (fun p => decide (p < ts.length))) = true)
      ∧ out.1 = (im0 :: restT).map (resizeCaught rz
          (List.zipWith (fun r n => (npRound (qmul r (qofNat n))).toNat)
            (List.zipWith qdiv (permuteQ tp os) (permuteQ tp ts)) im0.shape) 3)
      ∧ out.2 = seg.map (fun s => resizeCaught rz
          (List.zipWith (fun r n => (npRound (qmul r (qofNat n))).toNat)
            (List.zipWith qdiv (permuteQ tp os) (permuteQ tp ts)) im0.shape) 0
          (transposeArr tp s)) := by
  unfold resample_and_normalize_case at h
  split at h
  · rename_i hguard
    rw [Bool.and_eq_true] at hguard
    cases hT : normTransposeList tp
        (zip3With (fun a b c => (a, b, c)) images nop plan.intensities) with
    | error e => rw [hT, except_bind_error] at h; cases h
    | ok imgsT =>
      rw [hT, except_bind_ok] at h
      split at h
      · cases h
      · rename_i im0 restT
        split at h
        · cases seg with
          | none =>
            cases h
            rename_i hg2
            exact ⟨im0, restT, rfl,
              ⟨beq_iff_eq.mp hguard.1, beq_iff_eq.mp hguard.2⟩, hg2, rfl, rfl⟩
          | some s =>
            cases h
            rename_i hg2
            exact ⟨im0, restT, rfl,
              ⟨beq_iff_eq.mp hguard.1, beq_iff_eq.mp hguard.2⟩, hg2, rfl, rfl⟩
        · cases h
  · cases h

theorem inferReorient_ok (plan : Plan) (reorient : ReorientImpl) (images : List Volume)
    (img0 : Volume) (out : List Volume × Bool × Option String × Option String)
    (h : inferReorient plan reorient images img0 = .ok out) :
    out.2.1 = (img0.qformCoded || (img0.sformCoded && plan.target_coordinate_system.isSome))
    ∧ out.2.2.1.isSome = out.2.1
    ∧ out.2.2.2.isSome = out.2.1
    ∧ out.1.length = images.length
    ∧ (out.2.1 = false → out.1 = images) := by
  unfold inferReorient at h
  split at h
  · rename_i hgate
    split at h
    · cases h
    · cases h
      refine ⟨hgate.symm, rfl, rfl, by simp, ?_⟩
      intro hfalse
      cases hfalse
  · rename_i hgate
    cases h
    rw [Bool.not_eq_true] at hgate
    exact ⟨hgate.symm, rfl, rfl, rfl, fun _ => rfl⟩

theorem boxStarts_length : ∀ box : List ℕ, (boxStarts box).length = box.length / 2
  | [] => rfl
  | [_] => by simp [boxStarts]
  | _ :: _ :: rest => by
    rw [boxStarts, List.length_cons, boxStarts_length rest]
    simp only [List.length_cons]
    omega

theorem boxStops_length : ∀ box : List ℕ, (boxStops box).length = box.length / 2
  | [] => rfl
  | [_] => by simp [boxStops]
  | _ :: _ :: rest => by
    rw [boxStops, List.length_cons, boxStops_length rest]
    simp only [List.length_cons]
    omega

theorem boxSizes_length (box : List ℕ) : (boxSizes box).length = box.length / 2 := by
  rw [boxSizes, List.length_zipWith, boxStarts_length, boxStops_length, Nat.min_self]

theorem flatMap_length_two (f : α → List β) (l : List α) (hf : ∀ x, (f x).length = 2) :
    (l.flatMap f).length = 2 * l.length := by
  induction l with
  | nil => simp
  | cons x xs ih =>
    rw [List.flatMap_cons, List.length_append, hf, ih, List.length_cons]
    omega

theorem bbox_length (a : NDArr) (bg : ℚ) :
    (get_bbox_for_foreground a bg).length = 2 * a.shape.length := by
  unfold get_bbox_for_foreground
  rw [flatMap_length_two _ _ ?hf, List.length_range]
  intro ax
  dsimp only
  split <;> rfl

theorem getLastD_all_eq (v : α) (d : α) :
    ∀ l : List α, l ≠ [] → (∀ x ∈ l, x = v) → l.getLastD d = v := by
  intro l
  induction l with
  | nil => intro h; cases h rfl
  | cons x xs ih =>
    intro _ hall
    cases xs with
    | nil => simpa using hall x (by simp)
    | cons y ys =>
      rw [List.getLastD_cons]
      exact ih (by simp) (fun z hz => hall z (List.mem_cons_of_mem x hz))

theorem resizeCaught_resizeOk (o : List ℕ) (ord : ℕ) (a : NDArr) :
    resizeCaught resizeOk o ord a = resizeArr o a := rfl

theorem resizeCaught_resizeOk_fun (o : List ℕ) (ord : ℕ) :
    resizeCaught resizeOk o ord = resizeArr o := funext fun _ => rfl

theorem inferCrop_facts (plan : Plan) (arrs : List NDArr) :
    (inferCrop plan arrs).2.isSome = plan.crop_to_nonzero
    ∧ (inferCrop plan arrs).1.length = arrs.length
    ∧ (plan.crop_to_nonzero = true →
        (inferCrop plan arrs).2 = some (get_bbox_for_foreground (arrs.headD (zeros [])) 0)
        ∧ (inferCrop plan arrs).1
            = arrs.map (crop_to_box · (get_bbox_for_foreground (arrs.headD (zeros [])) 0)))
    ∧ (plan.crop_to_nonzero = false → inferCrop plan arrs = (arrs, none)) := by
  unfold inferCrop
  cases hc : plan.crop_to_nonzero with
  | true => simp
  | false => simp

theorem forall₂_mem_right (R : α → β → Prop) :
    ∀ (l : List α) (out : List β), List.Forall₂ R l out → ∀ b ∈ out, ∃ a ∈ l, R a b := by
  intro l out h
  induction h with
  | nil => intro b hb; cases hb
  | cons hR _ ih =>
    intro b hb
    rcases List.mem_cons.mp hb with hb | hb
    · exact ⟨_, List.mem_cons_self _ _, hb ▸ hR⟩
    · obtain ⟨a, ha, hRa⟩ := ih b hb
      exact ⟨a, List.mem_cons_of_mem _ ha, hRa⟩

/-- Inversion of a successful `preprocess_case_for_inference` run with the
concrete resize model: the relations between the recorded metadata fields
that drive reversal. -/
theorem infer_ok_facts (plan : Plan) (reorient : ReorientImpl)
    (img0 : Volume) (rest : List Volume) (patch : List ℕ) (t : NDArr)
    (props : ImageProperties)
    (h : preprocess_case_for_inference plan resizeOk reorient (img0 :: rest) patch
      = .ok (t, props)) :
    props.reoriented
        = (img0.qformCoded || (img0.sformCoded && plan.target_coordinate_system.isSome))
    ∧ props.original_orientation.isSome = props.reoriented
    ∧ props.new_orientation.isSome = props.reoriented
    ∧ props.nonzero_box.isSome = plan.crop_to_nonzero
    ∧ (plan.crop_to_nonzero = true →
        ∃ a0 : NDArr, props.nonzero_box = some (get_bbox_for_foreground a0 0)
          ∧ props.uncropped_shape = a0.shape
          ∧ props.cropped_shape = boxSizes (get_bbox_for_foreground a0 0))
    ∧ props.resampled_transposed_shape.length = plan.transpose_forward.length
    ∧ props.padded_shape = patch
    ∧ props.resampled_transposed_shape.length = patch.length
    ∧ (List.zipWith (fun c t' => decide (c ≤ t')) props.resampled_transposed_shape patch).all id
        = true
    ∧ t.shape = 1 :: (rest.length + 1) :: props.padded_shape
    ∧ props.padding = interleavePad (padBefore props.resampled_transposed_shape patch)
        (padAfter props.resampled_transposed_shape patch) := by
  replace h : inferBody plan resizeOk reorient (img0 :: rest) img0 patch = .ok (t, props) := h
  unfold inferBody at h
  dsimp only at h
  split at h
  · cases hre : inferReorient plan reorient (img0 :: rest) img0 with
    | error e => rw [hre, except_bind_error] at h; cases h
    | ok out4 =>
      rw [hre, except_bind_ok] at h
      obtain ⟨imagesO, reo, oo, no⟩ := out4
      obtain ⟨hreo, hoo, hno, hlenO, -⟩ := inferReorient_ok _ _ _ _ _ hre
      simp only at hreo hoo hno hlenO
      cases imagesO with
      | nil => simp at hlenO
      | cons v0 vrest =>
      simp only [List.map_cons, List.headD_cons] at h
      have hlenO' : vrest.length = rest.length := by
        simpa using hlenO
      cases hic : inferCrop plan (v0.arr :: vrest.map (·.arr)) with
      | mk arrsC nbox =>
      rw [hic] at h
      simp only at h
      cases hrs : resample_and_normalize_case plan resizeOk arrsC none
          plan.normalization_scheme plan.transpose_forward img0.spacing
          plan.target_spacing with
      | error e => rw [hrs, except_bind_error] at h; cases h
      | ok outR =>
        rw [hrs, except_bind_ok] at h
        obtain ⟨arrsR, segR⟩ := outR
        obtain ⟨im0T, restT, hT, hlens, -, harrsR, -⟩ := resample_ok_inv _ _ _ _ _ _ _ _ _ hrs
        simp only at harrsR
        simp only at h
        subst harrsR
        rw [List.map_cons, resizeCaught_resizeOk_fun] at h
        cases hpad : (resizeArr
            (List.zipWith (fun r n => (npRound (qmul r (qofNat n))).toNat)
              (List.zipWith qdiv (permuteQ plan.transpose_forward img0.spacing)
                (permuteQ plan.transpose_forward plan.target_spacing)) im0T.shape) im0T
            :: restT.map (resizeArr
            (List.zipWith (fun r n => (npRound (qmul r (qofNat n))).toNat)
              (List.zipWith qdiv (permuteQ plan.transpose_forward img0.spacing)
                (permuteQ plan.transpose_forward plan.target_spacing)) im0T.shape))).mapM
            (fun im => pad_to_size im patch) with
        | error e => rw [hpad, except_bind_error] at h; cases h
        | ok padded =>
          rw [hpad, except_bind_ok] at h
          rw [Except.ok.injEq, Prod.mk.injEq] at h
          obtain ⟨ht, hp⟩ := h
          subst ht
          subst hp
          have hpadF := mapM_ok _ _ _ hpad
          have hlenPad := hpadF.length_eq
          cases padded with
          | nil => simp at hlenPad
          | cons p0 prest =>
          have hp0 : pad_to_size (resizeArr
              (List.zipWith (fun r n => (npRound (qmul r (qofNat n))).toNat)
                (List.zipWith qdiv (permuteQ plan.transpose_forward img0.spacing)
                  (permuteQ plan.transpose_forward plan.target_spacing)) im0T.shape) im0T)
              patch = .ok p0 := by
            cases hpadF with
            | cons hR _ => exact hR
          obtain ⟨hp0shape, hp0pad, hp0len, hp0le⟩ := pad_to_size_ok _ _ _ hp0
          have hicf := inferCrop_facts plan (v0.arr :: vrest.map (·.arr))
          rw [hic] at hicf
          obtain ⟨hic1, hic2, hic3, hic4⟩ := hicf
          simp only at hic1 hic2 hic3 hic4
          have hTfacts := normTransposeList_ok _ _ _ hT
          have him0T : im0T.shape.length = plan.transpose_forward.length := by
            obtain ⟨trip, l', hR, -, -⟩ := List.forall₂_cons_right_iff.mp hTfacts
            exact hR.2
          have hTlen := hTfacts.length_eq
          have hz3len : (zip3With (fun a b c => (a, b, c)) arrsC plan.normalization_scheme
              plan.intensities).length = arrsC.length := by
            rw [zip3With_length, ← hlens.2, ← hlens.1]
            simp
          simp only [List.headD_cons] at hic3
          refine ⟨hreo, hoo, hno, hic1, ?_, ?_, ?_, ?_, ?_, ?_, ?_⟩
          · intro hcrop
            obtain ⟨hnbox, harrsC⟩ := hic3 hcrop
            refine ⟨v0.arr, hnbox, rfl, ?_⟩
            rw [harrsC]
            simp only [List.map_cons, List.headD_cons]
            rfl
          · simp only [List.headD_cons, resizeArr_shape]
            rw [List.length_zipWith, List.length_zipWith, permuteQ_length, permuteQ_length,
              him0T]
            simp
          · simp only [List.map_cons, List.headD_cons]
            exact hp0shape
          · simpa using hp0len
          · simpa using hp0le
          · simp only [stackBatch, List.map_cons, List.headD_cons, List.length_cons,
              List.length_map]
            have h1 : restT.length + 1 = arrsC.length := by
              rw [← hz3len, hTlen]
              simp
            have h2 : arrsC.length = rest.length + 1 := by
              rw [hic2]
              simp [hlenO']
            have h3 : restT.length = prest.length := by simpa using hlenPad
            have h4 : prest.length = rest.length := by omega
            rw [h4]
          · simp only [List.headD_cons, resizeArr_shape]
            apply getLastD_all_eq
            · simp
            · intro x hx
              rw [List.mem_map] at hx
              obtain ⟨pr, hpr, hx⟩ := hx
              obtain ⟨a, ha, hRa⟩ := forall₂_mem_right _ _ _ hpadF pr hpr
              have hashape : a.shape = List.zipWith (fun r n => (npRound (qmul r (qofNat n))).toNat)
                  (List.zipWith qdiv (permuteQ plan.transpose_forward img0.spacing)
                    (permuteQ plan.transpose_forward plan.target_spacing)) im0T.shape := by
                rcases List.mem_cons.mp ha with ha | ha
                · rw [ha, resizeArr_shape]
                · rw [List.mem_map] at ha
                  obtain ⟨y, -, hy⟩ := ha
                  rw [← hy, resizeArr_shape]
              obtain ⟨-, hpad2, -, -⟩ := pad_to_size_ok _ _ _ hRa
              rw [← hx, hpad2, hashape]
  · cases h

/-! ## Assembling `reverse_preprocessing` on consistent records -/

theorem processChannel_ok (plan : Plan) (props : ImageProperties) (image : NDArr)
    (h1 : image.shape = props.padded_shape)
    (h2 : (stripPadding props.padding image).shape = props.resampled_transposed_shape)
    (h3 : permuteN plan.transpose_backward (permuteN plan.transpose_forward props.cropped_shape)
        = props.cropped_shape) :
    processChannel plan resizeOk props image
      = .ok (transposeArr plan.transpose_backward
          (resizeArr (permuteN plan.transpose_forward props.cropped_shape)
            (stripPadding props.padding image))) := by
  unfold processChannel resizeOk
  simp [h1, h2, transposeArr_shape, resizeArr_shape, h3]

theorem maybeReseat_ok (plan : Plan) (props : ImageProperties) (canvas : NDArr) (c : ℕ)
    (image : NDArr) (box : List ℕ)
    (hcrop : plan.crop_to_nonzero = true) (hbox : props.nonzero_box = some box)
    (hb5 : box.length ≠ 5) (hc0 : 0 < canvas.shape.getD 0 0)
    (hcc : c < canvas.shape.getD 1 0) :
    maybeReseat plan props canvas 0 c image = .ok (writeChannelBox canvas 0 c box image) := by
  unfold maybeReseat
  simp only [List.getD_eq_getElem?_getD] at hc0 hcc
  simp [hcrop, hbox, hb5, hc0, hcc, List.getD_eq_getElem?_getD]

/-- C1: for every prediction batch and every ImageProperties record produced
by `preprocess_case_for_inference` with cropping enabled, the reverse
pipeline strips the recorded pad widths from the recorded padded shape back
to the recorded resampled/transposed shape, resamples to the cropped shape
taken in transposed order and applies the backward transpose (all shape
asserts passing), then re-seats each batch item and class channel into a
zero-initialized canvas of shape `(1, nclasses, *uncropped_shape)` at the
recorded nonzero box, so the output is the reversed prediction inside the
box and exactly zero everywhere outside it. -/
theorem reverse_preprocessing_crop_canvas (plan : Plan) (reorient : ReorientImpl)
    (img0 : Volume) (rest : List Volume) (patch : List ℕ) (t preds : NDArr)
    (props : ImageProperties)
    (hfwd : preprocess_case_for_inference plan resizeOk reorient (img0 :: rest) patch
      = .ok (t, props))
    (hcrop : plan.crop_to_nonzero = true)
    (hperm : isInvPerm plan.transpose_forward plan.transpose_backward = true)
    (hd : plan.transpose_forward.length = 2 ∨ plan.transpose_forward.length = 3)
    (hrank : props.uncropped_shape.length = plan.transpose_forward.length)
    (hpred : preds.shape = 1 :: plan.classes.length :: props.padded_shape) :
    ∃ canvas : NDArr, reverse_preprocessing plan resizeOk preds props = .ok canvas
      ∧ canvas.shape = 1 :: plan.classes.length :: props.uncropped_shape
      ∧ ∃ box : List ℕ, props.nonzero_box = some box
        ∧ ∀ c, c < plan.classes.length → ∀ idx : List ℕ,
            canvas.data (0 :: c :: idx) =
              if inBoxB box idx = true then
                (transposeArr plan.transpose_backward
                  (resizeArr (permuteN plan.transpose_forward props.cropped_shape)
                    (stripPadding props.padding (channelAt preds 0 c)))).data
                  (List.zipWith (fun i s => i - s) idx (boxStarts box))
              else 0 := by
  obtain ⟨-, -, -, -, f5, f6, f7, f8, f9, -, f11⟩ :=
    infer_ok_facts plan reorient img0 rest patch t props hfwd
  obtain ⟨a0, hbox, hunc, hcrsh⟩ := f5 hcrop
  have hboxlen : (get_bbox_for_foreground a0 0).length = 2 * plan.transpose_forward.length := by
    rw [bbox_length, ← hrank, hunc]
  have hb5 : (get_bbox_for_foreground a0 0).length ≠ 5 := by
    rcases hd with h | h <;> omega
  have hcroplen : props.cropped_shape.length = plan.transpose_forward.length := by
    rw [hcrsh, boxSizes_length, hboxlen]
    omega
  have hstrip : ∀ img : NDArr, img.shape = props.padded_shape →
      (stripPadding props.padding img).shape = props.resampled_transposed_shape := by
    intro img himg
    rw [stripPadding_shape, himg, f7, f11]
    rcases hd with h2 | h3
    · obtain ⟨c0, c1, hc⟩ := List.length_eq_two.mp (f6.trans h2)
      obtain ⟨t0, t1, htp⟩ := List.length_eq_two.mp ((f8.symm.trans f6).trans h2)
      rw [hc, htp] at f9 ⊢
      simp only [List.zipWith_cons_cons, List.zipWith_nil_right, List.all_cons, List.all_nil,
        id_eq, Bool.and_eq_true, decide_eq_true_eq, And.comm] at f9
      exact stripShape_round2 c0 c1 t0 t1 (by tauto) (by tauto)
    · obtain ⟨c0, c1, c2, hc⟩ := List.length_eq_three.mp (f6.trans h3)
      obtain ⟨t0, t1, t2, htp⟩ := List.length_eq_three.mp ((f8.symm.trans f6).trans h3)
      rw [hc, htp] at f9 ⊢
      simp only [List.zipWith_cons_cons, List.zipWith_nil_right, List.all_cons, List.all_nil,
        id_eq, Bool.and_eq_true, decide_eq_true_eq] at f9
      exact stripShape_round3 c0 c1 c2 t0 t1 t2 (by tauto) (by tauto) (by tauto)
  have hchan : ∀ c : ℕ, (channelAt preds 0 c).shape = props.padded_shape := by
    intro c
    show (preds.shape.drop 2) = props.padded_shape
    rw [hpred]
    rfl
  have hproc : ∀ c : ℕ, processChannel plan resizeOk props (channelAt preds 0 c)
      = .ok (transposeArr plan.transpose_backward
          (resizeArr (permuteN plan.transpose_forward props.cropped_shape)
            (stripPadding props.padding (channelAt preds 0 c)))) := by
    intro c
    exact processChannel_ok plan props _ (hchan c) (hstrip _ (hchan c))
      (permuteN_inv _ _ _ hperm hcroplen)
  have hstep : ∀ cv c, cv.shape = 1 :: plan.classes.length :: props.uncropped_shape →
      c ∈ List.range plan.classes.length →
      (do
        let img ← processChannel plan resizeOk props (channelAt preds 0 c)
        maybeReseat plan props cv 0 c img)
      = .ok (writeChannelBox cv 0 c (get_bbox_for_foreground a0 0)
          (transposeArr plan.transpose_backward
            (resizeArr (permuteN plan.transpose_forward props.cropped_shape)
              (stripPadding props.padding (channelAt preds 0 c))))) := by
    intro cv c hcv hcm
    rw [hproc c, except_bind_ok]
    exact maybeReseat_ok plan props cv c _ _ hcrop hbox hb5
      (by rw [hcv]; simp) (by rw [hcv]; simpa using List.mem_range.mp hcm)
  have hmain : reverse_preprocessing plan resizeOk preds props
      = .ok (foldWrites (get_bbox_for_foreground a0 0)
          (fun c => transposeArr plan.transpose_backward
            (resizeArr (permuteN plan.transpose_forward props.cropped_shape)
              (stripPadding props.padding (channelAt preds 0 c))))
          (zeros (1 :: plan.classes.length :: props.uncropped_shape))
          (List.range plan.classes.length)) := by
    unfold reverse_preprocessing
    rw [hpred]
    simp only [List.getD_cons_zero, List.getD_cons_succ]
    rw [show List.range 1 = [0] from rfl, List.foldlM_cons]
    simp only [List.foldlM_nil]
    rw [foldlM_writes _ (get_bbox_for_foreground a0 0) _ _ _ hstep _ rfl]
    rfl
  refine ⟨_, hmain, ?_, get_bbox_for_foreground a0 0, hbox, ?_⟩
  · rw [foldWrites_shape]
    rfl
  · intro c hc idx
    rw [foldWrites_data]
    by_cases hib : inBoxB (get_bbox_for_foreground a0 0) idx = true
    · simp [hib, hc, List.mem_range]
    · simp [hib, hc, List.mem_range, zeros]

/-! ## Concrete instances for witnesses -/

def onesArr (shape : List ℕ) : NDArr := ⟨shape, fun _ => 1⟩

def reorientId : ReorientImpl := fun _ _ v => v

def ccZero : CCImpl := fun _ => (0, [])

def emptyProps : ImageProperties :=
  ⟨[], [], [], [], false, none, none, [], [], none, [], [], [], []⟩

/-- A 2x2 volume whose only foreground voxel is at `(1, 1)`. -/
def volC : Volume :=
  ⟨⟨[2, 2], fun idx => if idx == [1, 1] then 1 else 0⟩, [1, 1], "RAS", false, false,
   [[1]], [[1]], [[1]]⟩

/-- A plan with cropping enabled, identity transposes and one class. -/
def planC : Plan :=
  ⟨[1, 1], ["no_norm"], [0, 1], [0, 1], true, some "RAS", [0], 2, [(0, 1)]⟩

/-- An all-ones prediction of shape `(1, 1, 2, 2)`. -/
def predsC : NDArr := ⟨[1, 1, 2, 2], fun _ => 1⟩

def inferC : Except String (NDArr × ImageProperties) :=
  preprocess_case_for_inference planC resizeOk reorientId [volC] [2, 2]

def tC : NDArr := (inferC.toOption.getD (zeros [], emptyProps)).1

def propsC : ImageProperties := (inferC.toOption.getD (zeros [], emptyProps)).2

/-- Witness for C1 at the concrete 2x2 single-modality case. -/
theorem reverse_preprocessing_crop_canvas_witness :
    ∃ canvas : NDArr, reverse_preprocessing planC resizeOk predsC propsC = .ok canvas
      ∧ canvas.shape = 1 :: planC.classes.length :: propsC.uncropped_shape
      ∧ ∃ box : List ℕ, propsC.nonzero_box = some box
        ∧ ∀ c, c < planC.classes.length → ∀ idx : List ℕ,
            canvas.data (0 :: c :: idx) =
              if inBoxB box idx = true then
                (transposeArr planC.transpose_backward
                  (resizeArr (permuteN planC.transpose_forward propsC.cropped_shape)
                    (stripPadding propsC.padding (channelAt predsC 0 c)))).data
                  (List.zipWith (fun i s => i - s) idx (boxStarts box))
              else 0 :=
  reverse_preprocessing_crop_canvas planC reorientId volC [] [2, 2] tC predsC propsC
    rfl rfl (by decide) (Or.inl rfl) (by decide) (by decide)

/-- An all-ones 2x2 volume. -/
def volNC : Volume :=
  ⟨onesArr [2, 2], [1, 1], "RAS", false, false, [[1]], [[1]], [[1]]⟩

/-- The same plan as `planC` but with cropping disabled. -/
def planNC : Plan :=
  ⟨[1, 1], ["no_norm"], [0, 1], [0, 1], false, some "RAS", [0], 2, [(0, 1)]⟩

def inferNC : Except String (NDArr × ImageProperties) :=
  preprocess_case_for_inference planNC resizeOk reorientId [volNC] [2, 2]

def tNC : NDArr := (inferNC.toOption.getD (zeros [], emptyProps)).1

def propsNC : ImageProperties := (inferNC.toOption.getD (zeros [], emptyProps)).2

/-- C2 (code bug): with cropping disabled, `reverse_preprocessing` returns an
all-zero canvas for a record produced by `preprocess_case_for_inference`: the
de-padded, de-resampled, back-transposed prediction (identically 1 here) is
never written into the canvas, because the assignment only happens inside the
`if crop_to_nonzero` branch (line 393). -/
theorem reverse_no_crop_returns_zero_canvas :
    inferNC = .ok (tNC, propsNC)
    ∧ (∃ canvas : NDArr,
        reverse_preprocessing planNC resizeOk predsC propsNC = .ok canvas
        ∧ canvas.shape = [1, 1, 2, 2]
        ∧ canvas.data [0, 0, 0, 0] = 0 ∧ canvas.data [0, 0, 1, 1] = 0)
    ∧ (transposeArr planNC.transpose_backward
        (resizeArr (permuteN planNC.transpose_forward propsNC.cropped_shape)
          (stripPadding propsNC.padding (channelAt predsC 0 0)))).data [0, 0] = 1
    ∧ (transposeArr planNC.transpose_backward
        (resizeArr (permuteN planNC.transpose_forward propsNC.cropped_shape)
          (stripPadding propsNC.padding (channelAt predsC 0 0)))).shape
        = propsNC.uncropped_shape := by
  refine ⟨rfl, ⟨(reverse_preprocessing planNC resizeOk predsC propsNC).toOption.getD (zeros []),
    rfl, by decide, by decide, by decide⟩, by decide, by decide⟩

/-! ## Inverting successful training-case runs -/

/-- Inversion of a successful `_preprocess_train_subject` core run: the
modality paths resolved to something, reorientation and the label-domain
check went through, and the persisted record carries the applied orientation
strings, the selected target spacing (the plan's, or the case's own when the
plan gives none) in transposed order, and the resampled size. -/
theorem train_core_ok (plan : Plan) (rz : ResizeImpl) (reorient : ReorientImpl)
    (cc : CCImpl) (load : String → Volume) (imagepaths : List String)
    (target_dir subject_id : String) (disable : Bool) (fs fs' : FS)
    (h : preprocess_train_core plan rz reorient cc load imagepaths target_dir subject_id
        disable fs = .ok fs') :
    ∃ (img0 : Volume) (irest : List Volume),
      (imagepaths.filter (fun p => strStartsWith p (subject_id ++ "_"))).map load = img0 :: irest
      ∧ ∃ (imgsA : List NDArr) (segA : NDArr) (oo fd : String),
          maybeReorientTrain plan reorient (img0 :: irest)
            (load ("labelsTr/" ++ subject_id ++ ".nii.gz")) = .ok (imgsA, segA, oo, fd)
          ∧ labelsOk segA plan.classes = true
          ∧ ∃ (stacked : NDArr) (props : TrainProps),
              fs' = saveFile (saveFile fs (target_dir ++ "/" ++ subject_id ++ ".npy")
                  (.npy stacked)) (target_dir ++ "/" ++ subject_id ++ ".pkl") (.pkl props)
              ∧ props.original_orientation = oo
              ∧ props.new_direction = fd
              ∧ props.new_spacing = permuteQ plan.transpose_forward
                  (if plan.target_spacing.length != 0 then plan.target_spacing
                   else img0.spacing)
              ∧ ∃ (imgsC : List NDArr) (segC : NDArr) (imgsR : List NDArr) (segF : NDArr),
                  resample_and_normalize_case plan rz imgsC (some segC)
                    plan.normalization_scheme plan.transpose_forward img0.spacing
                    (if plan.target_spacing.length != 0 then plan.target_spacing
                     else img0.spacing) = .ok (imgsR, some segF)
                  ∧ props.new_size = (imgsR.headD segF).shape := by
  unfold preprocess_train_core at h
  dsimp only at h
  cases hval : (if disable = true then (pure () : Except String Unit)
      else validateTrain plan
        ((imagepaths.filter (fun p => strStartsWith p (subject_id ++ "_"))).map load)
        (load ("labelsTr/" ++ subject_id ++ ".nii.gz"))) with
  | error e => rw [hval, except_bind_error] at h; cases h
  | ok u =>
    rw [hval, except_bind_ok] at h
    split at h
    · cases h
    · rename_i img0 irest heq
      refine ⟨img0, irest, heq, ?_⟩
      rw [heq] at h
      cases hre : maybeReorientTrain plan reorient (img0 :: irest)
          (load ("labelsTr/" ++ subject_id ++ ".nii.gz")) with
      | error e => rw [hre, except_bind_error] at h; cases h
      | ok out4 =>
        rw [hre, except_bind_ok] at h
        obtain ⟨imgsA, segA, oo, fd⟩ := out4
        simp only at h
        refine ⟨imgsA, segA, oo, fd, rfl, ?_⟩
        split at h
        · rename_i hlab
          cases hcr : trainCrop plan imgsA segA with
          | error e => rw [hcr, except_bind_error] at h; cases h
          | ok out3 =>
            rw [hcr, except_bind_ok] at h
            obtain ⟨imgsC, segC, cropRec⟩ := out3
            simp only at h
            cases hrs : resample_and_normalize_case plan rz imgsC (some segC)
                plan.normalization_scheme plan.transpose_forward img0.spacing
                (if plan.target_spacing.length != 0 then plan.target_spacing
                 else img0.spacing) with
            | error e => rw [hrs, except_bind_error] at h; cases h
            | ok outR =>
              rw [hrs, except_bind_ok] at h
              obtain ⟨imgsR, segR⟩ := outR
              split at h
              · rename_i r0 rs segF h1 h2
                simp only at h1 h2
                rw [Except.ok.injEq] at h
                rw [h1, h2] at hrs
                refine ⟨hlab, stackWithSeg (r0 :: rs) segF, _, h.symm, rfl, rfl, rfl,
                  imgsC, segC, r0 :: rs, segF, hrs, rfl⟩
              · cases h
        · cases h

/-- C3: reorientation to the plan's target coordinate system happens, in
training and at inference, exactly when the first volume carries a coded
qform or sform; when neither is coded the volumes are used as loaded and
this is recorded so reversal never re-applies a missing reorientation:
INVALID orientation strings in the training metadata, and
reoriented = false with no orientation keys at inference. -/
theorem reorientation_header_gate (plan : Plan) (reorient : ReorientImpl) :
    (∀ (img0 : Volume) (rest : List Volume) (seg : Volume),
      (img0.qformCoded = false → img0.sformCoded = false →
        maybeReorientTrain plan reorient (img0 :: rest) seg
          = .ok ((img0 :: rest).map (·.arr), seg.arr, "INVALID", "INVALID"))
      ∧ (∀ tcs : String, plan.target_coordinate_system = some tcs →
          (img0.qformCoded = true ∨ img0.sformCoded = true) →
          maybeReorientTrain plan reorient (img0 :: rest) seg
            = .ok ((img0 :: rest).map (fun im => (reorient img0.orientation tcs im).arr),
                   (reorient img0.orientation tcs seg).arr, img0.orientation, tcs)))
    ∧ (∀ (rz : ResizeImpl) (cc : CCImpl) (load : String → Volume) (imagepaths : List String)
        (target_dir subject_id : String) (disable : Bool) (fs fs' : FS)
        (img0 : Volume) (irest : List Volume),
        preprocess_train_core plan rz reorient cc load imagepaths target_dir subject_id
            disable fs = .ok fs' →
        (imagepaths.filter (fun p => strStartsWith p (subject_id ++ "_"))).map load
            = img0 :: irest →
        img0.qformCoded = false → img0.sformCoded = false →
        ∃ (stacked : NDArr) (props : TrainProps),
          fs' = saveFile (saveFile fs (target_dir ++ "/" ++ subject_id ++ ".npy")
              (.npy stacked)) (target_dir ++ "/" ++ subject_id ++ ".pkl") (.pkl props)
          ∧ props.original_orientation = "INVALID" ∧ props.new_direction = "INVALID")
    ∧ (∀ (img0 : Volume) (rest : List Volume) (patch : List ℕ) (t : NDArr)
        (props : ImageProperties),
        preprocess_case_for_inference plan resizeOk reorient (img0 :: rest) patch
            = .ok (t, props) →
        props.reoriented
            = (img0.qformCoded || (img0.sformCoded && plan.target_coordinate_system.isSome))
        ∧ (plan.target_coordinate_system.isSome = true →
            props.reoriented = (img0.qformCoded || img0.sformCoded))
        ∧ (props.reoriented = false →
            props.original_orientation = none ∧ props.new_orientation = none)) := by
  refine ⟨?_, ?_, ?_⟩
  · intro img0 rest seg
    constructor
    · intro hq hs
      unfold maybeReorientTrain
      simp [hq, hs]
    · intro tcs htcs hgate
      have hg : (img0.qformCoded || img0.sformCoded) = true := by
        rcases hgate with h | h <;> simp [h]
      unfold maybeReorientTrain
      simp [hg, htcs]
  · intro rz cc load imagepaths target_dir subject_id disable fs fs' img0 irest
      hcore heq hq hs
    obtain ⟨img0', irest', heq', imgsA, segA, oo, fd, hre, -, stacked, props, hfs,
      hoo, hfd, -, -⟩ := train_core_ok _ _ _ _ _ _ _ _ _ _ _ hcore
    rw [heq] at heq'
    obtain ⟨h0, h1⟩ := List.cons.injEq _ _ _ _ ▸ heq'
    subst h0
    subst h1
    have hinv : maybeReorientTrain plan reorient (img0 :: irest)
        (load ("labelsTr/" ++ subject_id ++ ".nii.gz"))
        = .ok ((img0 :: irest).map (·.arr),
            (load ("labelsTr/" ++ subject_id ++ ".nii.gz")).arr, "INVALID", "INVALID") := by
      unfold maybeReorientTrain
      simp [hq, hs]
    rw [hinv, Except.ok.injEq] at hre
    simp only [Prod.mk.injEq] at hre
    refine ⟨stacked, props, hfs, ?_, ?_⟩
    · rw [hoo, ← hre.2.2.1]
    · rw [hfd, ← hre.2.2.2]
  · intro img0 rest patch t props h
    obtain ⟨f1, f2, f3, -⟩ := infer_ok_facts plan reorient img0 rest patch t props h
    refine ⟨f1, ?_, ?_⟩
    · intro htcs
      rw [f1, htcs]
      simp
    · intro hfalse
      rw [hfalse] at f2 f3
      constructor
      · cases hoo : props.original_orientation with
        | none => rfl
        | some s => rw [hoo] at f2; simp at f2
      · cases hno : props.new_orientation with
        | none => rfl
        | some s => rw [hno] at f3; simp at f3

/-- Witness for C3: a headerless volume is not reoriented, the training
record carries INVALID orientations and the inference record carries
reoriented = false. -/
theorem reorientation_header_gate_witness :
    maybeReorientTrain planC reorientId [volC] volC
      = .ok ([volC.arr], volC.arr, "INVALID", "INVALID")
    ∧ propsC.reoriented = false ∧ propsC.original_orientation = none := by
  refine ⟨((reorientation_header_gate planC reorientId).1 volC [] volC).1 rfl rfl, ?_, ?_⟩
  · exact ((reorientation_header_gate planC reorientId).2.2 volC [] [2, 2] tC propsC
      rfl).1.trans (by decide)
  · exact (((reorientation_header_gate planC reorientId).2.2 volC [] [2, 2] tC propsC
      rfl).2.2 (((reorientation_header_gate planC reorientId).2.2 volC [] [2, 2] tC propsC
      rfl).1.trans (by decide))).1

/-- Following the spec: the resampling target shape is computed per axis as
`round((spacing_in_transposed_order / target_spacing_in_transposed_order) *
current_shape)`. -/
def specTargetShape (spacing_t target_spacing_t : List ℚ) (shape : List ℕ) : List ℕ :=
  zip3With (fun sp tsp n => (npRound (qmul (qdiv sp tsp) (qofNat n))).toNat)
    spacing_t target_spacing_t shape

/-- C4: every modality and the label are resampled to exactly the per-axis
shape `round((original spacing / target spacing) * shape)` taken in
transposed order, and the target spacing the training pipeline uses (and
records in transposed order) is the plan's target spacing, or the case's own
original spacing when the plan specifies none. -/
theorem resample_target_shape_formula (plan : Plan) :
    (∀ (seg i0 : NDArr) (irest : List NDArr) (nop : List String) (tp : List ℕ)
        (os ts : List ℚ) (imgs' : List NDArr) (seg' : Option NDArr),
        resample_and_normalize_case plan resizeOk (i0 :: irest) (some seg) nop tp os ts
            = .ok (imgs', seg') →
        (∀ a ∈ imgs',
          a.shape = specTargetShape (permuteQ tp os) (permuteQ tp ts) (permuteN tp i0.shape))
        ∧ ∃ s' : NDArr, seg' = some s'
            ∧ s'.shape = specTargetShape (permuteQ tp os) (permuteQ tp ts) (permuteN tp i0.shape))
    ∧ (∀ (rz : ResizeImpl) (reorient : ReorientImpl) (cc : CCImpl) (load : String → Volume)
        (imagepaths : List String) (target_dir subject_id : String) (disable : Bool)
        (fs fs' : FS) (img0 : Volume) (irest : List Volume),
        preprocess_train_core plan rz reorient cc load imagepaths target_dir subject_id
            disable fs = .ok fs' →
        (imagepaths.filter (fun p => strStartsWith p (subject_id ++ "_"))).map load
            = img0 :: irest →
        ∃ (stacked : NDArr) (props : TrainProps),
          fs' = saveFile (saveFile fs (target_dir ++ "/" ++ subject_id ++ ".npy")
              (.npy stacked)) (target_dir ++ "/" ++ subject_id ++ ".pkl") (.pkl props)
          ∧ props.new_spacing = permuteQ plan.transpose_forward
              (if plan.target_spacing.length ≠ 0 then plan.target_spacing
               else img0.spacing)) := by
  constructor
  · intro seg i0 irest nop tp os ts imgs' seg' h
    obtain ⟨im0T, restT, hT, hlens, -, himgs, hseg⟩ :=
      resample_ok_inv _ _ _ _ _ _ _ _ _ h
    simp only at himgs hseg
    have him0T : im0T.shape = permuteN tp i0.shape := by
      cases hnop : nop with
      | nil => rw [hnop] at hlens; simp at hlens
      | cons n0 ns =>
        cases hint : plan.intensities with
        | nil =>
          rw [hnop, hint] at hlens
          simp at hlens
        | cons p0 ps =>
          rw [hnop, hint] at hT
          rw [show zip3With (fun a b c => (a, b, c)) (i0 :: irest) (n0 :: ns) (p0 :: ps)
              = (i0, n0, p0) :: zip3With (fun a b c => (a, b, c)) irest ns ps from rfl] at hT
          obtain ⟨trip, l', hR, -, hcons⟩ :=
            List.forall₂_cons_right_iff.mp (normTransposeList_ok _ _ _ hT)
          obtain ⟨htrip, -⟩ := List.cons.injEq _ _ _ _ ▸ hcons
          rw [← htrip] at hR
          exact hR.1
    have htgt : List.zipWith (fun r n => (npRound (qmul r (qofNat n))).toNat)
        (List.zipWith qdiv (permuteQ tp os) (permuteQ tp ts)) im0T.shape
        = specTargetShape (permuteQ tp os) (permuteQ tp ts) (permuteN tp i0.shape) := by
      rw [him0T, specTargetShape, zipWith_zipWith_left]
    constructor
    · intro a ha
      rw [himgs, resizeCaught_resizeOk_fun] at ha
      rw [List.mem_map] at ha
      obtain ⟨y, -, hy⟩ := ha
      rw [← hy, resizeArr_shape, htgt]
    · refine ⟨resizeCaught resizeOk (List.zipWith (fun r n => (npRound (qmul r (qofNat n))).toNat)
        (List.zipWith qdiv (permuteQ tp os) (permuteQ tp ts)) im0T.shape) 0
        (transposeArr tp seg), ?_, ?_⟩
      · rw [hseg]
        rfl
      · rw [resizeCaught_resizeOk, resizeArr_shape, htgt]
  · intro rz reorient cc load imagepaths target_dir subject_id disable fs fs' img0 irest
      hcore heq
    obtain ⟨img0', irest', heq', imgsA, segA, oo, fd, -, -, stacked, props, hfs,
      -, -, hsp, -⟩ := train_core_ok _ _ _ _ _ _ _ _ _ _ _ hcore
    rw [heq] at heq'
    obtain ⟨h0, h1⟩ := List.cons.injEq _ _ _ _ ▸ heq'
    subst h0
    refine ⟨stacked, props, hfs, ?_⟩
    rw [hsp]
    congr 1
    rcases Nat.eq_zero_or_pos plan.target_spacing.length with hz | hz
    · simp [hz]
    · have : plan.target_spacing.length ≠ 0 := by omega
      simp [this]

/-- A plan with cropping enabled, identity transposes and classes 0 and 1,
under which the label volume `volC` passes the label-domain check. -/
def planT : Plan :=
  ⟨[1, 1], ["no_norm"], [0, 1], [0, 1], true, some "RAS", [0, 1], 2, [(0, 1)]⟩

def loadT : String → Volume := fun _ => volC

def fsT : FS :=
  (preprocess_train_core planT resizeOk reorientId ccZero loadT ["case_000"] "out" "case"
    false []).toOption.getD []

def rsC : List NDArr × Option NDArr :=
  (resample_and_normalize_case planT resizeOk [onesArr [2, 2]] (some (onesArr [2, 2]))
    ["no_norm"] [0, 1] [1, 1] [2, 1]).toOption.getD ([], none)

/-- Witness for C4 at a concrete resampling call (spacing (1,1) to (2,1) on a
2x2 case) and a concrete successful training run. -/
theorem resample_target_shape_formula_witness :
    ((∀ a ∈ rsC.1, a.shape = specTargetShape (permuteQ [0, 1] [1, 1]) (permuteQ [0, 1] [2, 1])
        (permuteN [0, 1] (onesArr [2, 2]).shape))
      ∧ ∃ s', rsC.2 = some s'
          ∧ s'.shape = specTargetShape (permuteQ [0, 1] [1, 1]) (permuteQ [0, 1] [2, 1])
              (permuteN [0, 1] (onesArr [2, 2]).shape))
    ∧ ∃ stacked props,
        fsT = saveFile (saveFile [] ("out" ++ "/" ++ "case" ++ ".npy") (.npy stacked))
            ("out" ++ "/" ++ "case" ++ ".pkl") (.pkl props)
        ∧ props.new_spacing = permuteQ planT.transpose_forward
            (if planT.target_spacing.length ≠ 0 then planT.target_spacing else volC.spacing) :=
  ⟨(resample_target_shape_formula planT).1 (onesArr [2, 2]) (onesArr [2, 2]) [] ["no_norm"]
      [0, 1] [1, 1] [2, 1] rsC.1 rsC.2 rfl,
   (resample_target_shape_formula planT).2 resizeOk reorientId ccZero loadT ["case_000"]
      "out" "case" false [] fsT volC [] rfl rfl⟩

/-- C5 counterexample: with cropping disabled, the record produced by
`preprocess_case_for_inference` has no `nonzero_box` key, so it is not
populated with every field of the metadata table. -/
theorem infer_props_missing_nonzero_box :
    inferNC = .ok (tNC, propsNC) ∧ propsNC.nonzero_box = none := ⟨rfl, by decide⟩

/-- C5 (amended): a successful inference preprocessing run returns a batched
tensor of shape `(1, channels, *padded_shape)` together with a record whose
always-present fields are populated, whose `nonzero_box` key is present
exactly when cropping is enabled, and whose orientation keys are present
exactly when reorientation was applied; reversal reads only this record and
the plan. -/
theorem infer_props_fields (plan : Plan) (reorient : ReorientImpl) (img0 : Volume)
    (rest : List Volume) (patch : List ℕ) (t : NDArr) (props : ImageProperties)
    (h : preprocess_case_for_inference plan resizeOk reorient (img0 :: rest) patch
      = .ok (t, props)) :
    t.shape = 1 :: (rest.length + 1) :: props.padded_shape
    ∧ props.padded_shape = patch
    ∧ props.nonzero_box.isSome = plan.crop_to_nonzero
    ∧ props.original_orientation.isSome = props.reoriented
    ∧ props.new_orientation.isSome = props.reoriented := by
  obtain ⟨-, f2, f3, f4, -, -, f7, -, -, f10, -⟩ :=
    infer_ok_facts plan reorient img0 rest patch t props h
  exact ⟨f10, f7, f4, f2, f3⟩

/-- Witness for C5 (amended) at the concrete cropping-enabled case. -/
theorem infer_props_fields_witness :
    tC.shape = 1 :: (([] : List Volume).length + 1) :: propsC.padded_shape
    ∧ propsC.padded_shape = [2, 2]
    ∧ propsC.nonzero_box.isSome = planC.crop_to_nonzero
    ∧ propsC.original_orientation.isSome = propsC.reoriented
    ∧ propsC.new_orientation.isSome = propsC.reoriented :=
  infer_props_fields planC reorientId volC [] [2, 2] tC propsC rfl

/-! ## Soundness of the training-time consistency checks -/

theorem qsub_self (a : ℚ) : qsub a a = 0 := by
  unfold qsub
  rw [sub_self, Rat.zero_mkRat]

theorem qabs_num_nonneg (a : ℚ) : 0 ≤ (qabs a).num := by
  unfold qabs
  exact Rat.num_nonneg.mpr (Rat.mkRat_nonneg (Int.ofNat_nonneg _) _)

theorem qmul_num_nonneg (a b : ℚ) (ha : 0 ≤ a.num) (hb : 0 ≤ b.num) :
    0 ≤ (qmul a b).num := by
  unfold qmul
  exact Rat.num_nonneg.mpr (Rat.mkRat_nonneg (mul_nonneg ha hb) _)

theorem qadd_num_nonneg (a b : ℚ) (ha : 0 ≤ a.num) (hb : 0 ≤ b.num) :
    0 ≤ (qadd a b).num := by
  unfold qadd
  exact Rat.num_nonneg.mpr (Rat.mkRat_nonneg
    (add_nonneg (mul_nonneg ha (Int.ofNat_nonneg _)) (mul_nonneg hb (Int.ofNat_nonneg _))) _)

theorem qle_zero_left (b : ℚ) (hb : 0 ≤ b.num) : qle 0 b = true := by
  unfold qle
  rw [decide_eq_true_eq]
  have h0 : (0 : ℚ).num = 0 := rfl
  have h1 : ((0 : ℚ).den : ℤ) = 1 := rfl
  rw [h0, h1, zero_mul, mul_one]
  exact hb

/-- `np.allclose` is reflexive on spacing vectors. -/
theorem npAllclose_self (xs : List ℚ) : npAllclose xs xs = true := by
  unfold npAllclose
  rw [Bool.and_eq_true]
  refine ⟨by simp, ?_⟩
  rw [List.all_eq_true]
  intro x hx
  have hmem : ∃ a ∈ xs, qle (qabs (qsub a a))
      (qadd (mkRat 1 100000000) (qmul (mkRat 1 100000) (qabs a))) = x := by
    have := List.zipWith_same (f := fun a b : ℚ => qle (qabs (qsub a b))
      (qadd (mkRat 1 100000000) (qmul (mkRat 1 100000) (qabs b)))) (l := xs)
    rw [this] at hx
    rw [List.mem_map] at hx
    obtain ⟨a, ha, hax⟩ := hx
    exact ⟨a, ha, hax⟩
  obtain ⟨a, -, hax⟩ := hmem
  rw [id_eq, ← hax, qsub_self]
  rw [show qabs 0 = 0 from by decide]
  exact qle_zero_left _ (qadd_num_nonneg _ _ (by decide)
    (qmul_num_nonneg _ _ (by decide) (qabs_num_nonneg a)))

theorem validateEach_sound (img0 : Volume) :
    ∀ l : List Volume, validateEach img0 l = .ok () →
      ∀ v ∈ l, v.arr.shape = img0.arr.shape ∧ npAllclose img0.spacing v.spacing = true
        ∧ v.orientation = img0.orientation := by
  intro l
  induction l with
  | nil => intro _ v hv; cases hv
  | cons x xs ih =>
    intro h v hv
    rw [validateEach] at h
    split at h
    · split at h
      · split at h
        · rcases List.mem_cons.mp hv with hv | hv
          · subst hv
            rename_i h1 h2 h3
            exact ⟨(beq_iff_eq.mp h1).symm, h2, (beq_iff_eq.mp h3).symm⟩
          · exact ih h v hv
        · cases h
      · cases h
    · cases h

theorem validateTrain_sound (plan : Plan) (images : List Volume) (seg : Volume)
    (h : validateTrain plan images seg = .ok ()) :
    ∃ (img0 : Volume) (irest : List Volume), images = img0 :: irest
      ∧ img0.arr.shape.length = plan.data_dimensions
      ∧ img0.arr.shape = seg.arr.shape
      ∧ npAllclose img0.spacing seg.spacing = true
      ∧ img0.orientation = seg.orientation
      ∧ ∀ v ∈ images, v.arr.shape = img0.arr.shape
          ∧ npAllclose img0.spacing v.spacing = true
          ∧ v.orientation = img0.orientation := by
  unfold validateTrain at h
  split at h
  · cases h
  · rename_i img0 irest
    split at h
    · split at h
      · split at h
        · split at h
          · split at h
            · rename_i h1 h2 h3 h4 h5
              refine ⟨img0, irest, rfl, beq_iff_eq.mp h1, beq_iff_eq.mp h2, h3,
                beq_iff_eq.mp h4, validateEach_sound img0 _ h⟩
            · rename_i h1 h2 h3 h4 h5
              cases h
              refine ⟨img0, irest, rfl, beq_iff_eq.mp h1, beq_iff_eq.mp h2, h3,
                beq_iff_eq.mp h4, ?_⟩
              have hlen : irest = [] := by
                cases irest with
                | nil => rfl
                | cons y ys => simp at h5
              subst hlen
              intro v hv
              rcases List.mem_cons.mp hv with hv | hv
              · subst hv
                exact ⟨rfl, npAllclose_self _, rfl⟩
              · cases hv
          · cases h
        · cases h
      · cases h
    · cases h

/-- A consistency failure detected by `validateTrain` aborts the case: the
store is untouched and the assertion message is reported. -/
theorem train_validate_error (plan : Plan) (rz : ResizeImpl) (reorient : ReorientImpl)
    (cc : CCImpl) (load : String → Volume) (imagepaths : List String)
    (target_dir subject_id : String) (fs : FS) (e : String)
    (hnof : (isfile fs (target_dir ++ "/" ++ subject_id ++ ".npy")
        && isfile fs (target_dir ++ "/" ++ subject_id ++ ".pkl")) = false)
    (hval : validateTrain plan
        ((imagepaths.filter (fun p => strStartsWith p (subject_id ++ "_"))).map load)
        (load ("labelsTr/" ++ subject_id ++ ".nii.gz")) = .error e) :
    preprocess_train_subject plan rz reorient cc load imagepaths target_dir subject_id
      false fs = (fs, some e) := by
  have hcore : preprocess_train_core plan rz reorient cc load imagepaths target_dir
      subject_id false fs = .error e := by
    unfold preprocess_train_core
    dsimp only
    rw [if_neg (by simp), hval, except_bind_error]
  unfold preprocess_train_subject
  dsimp only
  rw [hnof]
  simp only [Bool.false_eq_true, if_false, hcore]

/-- C6: with validation enabled (the default) and the case not already
processed, the training preprocessor fails the case with a fatal assertion
(writing nothing, never silently coercing) when zero modality files resolve
for the subject, when a volume's dimensionality differs from the plan's
declared dimensionality, when any modality's shape differs from the label's
shape, when any spacing differs beyond the `np.allclose` floating tolerance,
or when any orientation code differs. -/
theorem training_validation_rejects (plan : Plan) (rz : ResizeImpl)
    (reorient : ReorientImpl) (cc : CCImpl) (load : String → Volume)
    (imagepaths : List String) (target_dir subject_id : String) (fs : FS)
    (hnof : (isfile fs (target_dir ++ "/" ++ subject_id ++ ".npy")
        && isfile fs (target_dir ++ "/" ++ subject_id ++ ".pkl")) = false) :
    ((imagepaths.filter (fun p => strStartsWith p (subject_id ++ "_"))).map load = [] →
      (preprocess_train_subject plan rz reorient cc load imagepaths target_dir subject_id
          false fs).1 = fs
      ∧ (preprocess_train_subject plan rz reorient cc load imagepaths target_dir subject_id
          false fs).2.isSome = true)
    ∧ ∀ (img0 : Volume) (irest : List Volume),
        (imagepaths.filter (fun p => strStartsWith p (subject_id ++ "_"))).map load
            = img0 :: irest →
        ((∃ v ∈ img0 :: irest, v.arr.shape.length ≠ plan.data_dimensions)
          ∨ (∃ v ∈ img0 :: irest,
              v.arr.shape ≠ (load ("labelsTr/" ++ subject_id ++ ".nii.gz")).arr.shape)
          ∨ ¬(npAllclose img0.spacing
              (load ("labelsTr/" ++ subject_id ++ ".nii.gz")).spacing = true)
          ∨ (∃ v ∈ img0 :: irest, ¬(npAllclose img0.spacing v.spacing = true))
          ∨ img0.orientation ≠ (load ("labelsTr/" ++ subject_id ++ ".nii.gz")).orientation
          ∨ (∃ v ∈ img0 :: irest, v.orientation ≠ img0.orientation)) →
        (preprocess_train_subject plan rz reorient cc load imagepaths target_dir subject_id
            false fs).1 = fs
        ∧ (preprocess_train_subject plan rz reorient cc load imagepaths target_dir subject_id
            false fs).2.isSome = true := by
  constructor
  · intro hempty
    have hval : validateTrain plan
        ((imagepaths.filter (fun p => strStartsWith p (subject_id ++ "_"))).map load)
        (load ("labelsTr/" ++ subject_id ++ ".nii.gz"))
        = .error "AssertionError: found no images" := by
      rw [hempty]
      rfl
    rw [train_validate_error plan rz reorient cc load imagepaths target_dir subject_id fs _
      hnof hval]
    exact ⟨rfl, rfl⟩
  · intro img0 irest heq hmis
    cases hval : validateTrain plan
        ((imagepaths.filter (fun p => strStartsWith p (subject_id ++ "_"))).map load)
        (load ("labelsTr/" ++ subject_id ++ ".nii.gz")) with
    | error e =>
      rw [train_validate_error plan rz reorient cc load imagepaths target_dir subject_id fs _
        hnof hval]
      exact ⟨rfl, rfl⟩
    | ok u =>
      exfalso
      obtain ⟨⟩ := u
      obtain ⟨img0', irest', heq', hdim, hshape, hspc, hor, hall⟩ :=
        validateTrain_sound plan _ _ hval
      rw [heq] at heq'
      obtain ⟨h0, h1⟩ := List.cons.injEq _ _ _ _ ▸ heq'
      subst h0
      subst h1
      rw [← heq] at hmis
      rcases hmis with ⟨v, hv, hbad⟩ | ⟨v, hv, hbad⟩ | hbad | ⟨v, hv, hbad⟩ | hbad
        | ⟨v, hv, hbad⟩
      · exact hbad (((hall v hv).1.symm ▸ hdim : v.arr.shape.length = plan.data_dimensions))
      · exact hbad ((hall v hv).1.trans hshape)
      · exact hbad hspc
      · exact hbad (hall v hv).2.1
      · exact hbad hor
      · exact hbad (hall v hv).2.2

/-- A 1x1x1 volume with spacing (1,1,1). -/
def volS1 : Volume :=
  ⟨onesArr [1, 1, 1], [1, 1, 1], "RAS", false, false, [[1]], [[1]], [[1]]⟩

/-- A 1x1x1 volume with spacing (1,1,2). -/
def volS2 : Volume :=
  ⟨onesArr [1, 1, 1], [1, 1, 2], "RAS", false, false, [[1]], [[1]], [[1]]⟩

/-- A 3D plan for the spacing-mismatch witness. -/
def planV : Plan :=
  ⟨[1, 1, 1], ["no_norm"], [0, 1, 2], [0, 1, 2], true, some "RAS", [0, 1], 3, [(0, 1)]⟩

/-- A loader returning the (1,1,2)-spaced volume for the label path and the
(1,1,1)-spaced volume for the modality path. -/
def loadSp : String → Volume := fun p => if strStartsWith p "labelsTr" then volS2 else volS1

/-- Witness for C6: mismatched spacings (1,1,1) versus (1,1,2) make the case
fail without writes. -/
theorem training_validation_rejects_witness :
    (preprocess_train_subject planV resizeOk reorientId ccZero loadSp ["case_000"] "out"
      "case" false []).1 = []
    ∧ (preprocess_train_subject planV resizeOk reorientId ccZero loadSp ["case_000"] "out"
      "case" false []).2.isSome = true :=
  (training_validation_rejects planV resizeOk reorientId ccZero loadSp ["case_000"] "out"
    "case" [] (by decide)).2 volS1 [] rfl (Or.inr (Or.inr (Or.inl (by decide))))

/-- C7: after the conditional reorientation step, the training preprocessor
checks that the label value set is a subset of the plan's declared class set
and fails the case otherwise, writing nothing; the check runs for every
value of the disable-validation switch. -/
theorem label_domain_check_unconditional (plan : Plan) (rz : ResizeImpl)
    (reorient : ReorientImpl) (cc : CCImpl) (load : String → Volume)
    (imagepaths : List String) (target_dir subject_id : String) (fs : FS)
    (imgsA : List NDArr) (segA : NDArr) (oo fd : String)
    (hnof : (isfile fs (target_dir ++ "/" ++ subject_id ++ ".npy")
        && isfile fs (target_dir ++ "/" ++ subject_id ++ ".pkl")) = false)
    (hre : maybeReorientTrain plan reorient
        ((imagepaths.filter (fun p => strStartsWith p (subject_id ++ "_"))).map load)
        (load ("labelsTr/" ++ subject_id ++ ".nii.gz")) = .ok (imgsA, segA, oo, fd))
    (hbad : labelsOk segA plan.classes = false) :
    ∀ disable : Bool,
      (disable = false → validateTrain plan
        ((imagepaths.filter (fun p => strStartsWith p (subject_id ++ "_"))).map load)
        (load ("labelsTr/" ++ subject_id ++ ".nii.gz")) = .ok ()) →
      preprocess_train_subject plan rz reorient cc load imagepaths target_dir subject_id
        disable fs
        = (fs, some ("AssertionError: Unexpected labels found for " ++ subject_id)) := by
  intro disable hvalok
  have hcore : preprocess_train_core plan rz reorient cc load imagepaths target_dir
      subject_id disable fs
      = .error ("AssertionError: Unexpected labels found for " ++ subject_id) := by
    have hv : (if disable = true then (pure () : Except String Unit)
        else validateTrain plan
          ((imagepaths.filter (fun p => strStartsWith p (subject_id ++ "_"))).map load)
          (load ("labelsTr/" ++ subject_id ++ ".nii.gz"))) = .ok () := by
      cases disable with
      | true => rfl
      | false =>
        rw [if_neg (by simp)]
        exact hvalok rfl
    unfold preprocess_train_core
    dsimp only
    rw [hv, except_bind_ok]
    cases himgs : (imagepaths.filter (fun p => strStartsWith p (subject_id ++ "_"))).map load
      with
    | nil =>
      rw [himgs] at hre
      rw [show maybeReorientTrain plan reorient [] (load ("labelsTr/" ++ subject_id
        ++ ".nii.gz")) = .error "IndexError: no images" from rfl] at hre
      cases hre
    | cons img0 irest =>
      rw [himgs] at hre
      dsimp only
      rw [hre, except_bind_ok]
      dsimp only
      rw [hbad]
      simp
  unfold preprocess_train_subject
  dsimp only
  rw [hnof]
  simp only [Bool.false_eq_true, if_false, hcore]

/-- Witness for C7: the label volume with values 0 and 1 is rejected under a
plan whose class set is just 0, even with validation disabled. -/
theorem label_domain_check_unconditional_witness :
    preprocess_train_subject planC resizeOk reorientId ccZero loadT ["case_000"] "out"
      "case" true []
      = ([], some ("AssertionError: Unexpected labels found for " ++ "case")) :=
  label_domain_check_unconditional planC resizeOk reorientId ccZero loadT ["case_000"]
    "out" "case" [] [volC.arr] volC.arr "INVALID" "INVALID" (by decide) rfl (by decide)
    true (fun h => nomatch h)

/-- C8: the forward preprocessing of a single case returns immediately with
no writes when both the array and the metadata artifact already exist, and a
second run over the same case leaves the store exactly as the first run left
it. -/
theorem preprocess_train_idempotent (plan : Plan) (rz : ResizeImpl)
    (reorient : ReorientImpl) (cc : CCImpl) (load : String → Volume)
    (imagepaths : List String) (target_dir subject_id : String) (disable : Bool) (fs : FS) :
    (isfile fs (target_dir ++ "/" ++ subject_id ++ ".npy") = true →
      isfile fs (target_dir ++ "/" ++ subject_id ++ ".pkl") = true →
      preprocess_train_subject plan rz reorient cc load imagepaths target_dir subject_id
        disable fs = (fs, none))
    ∧ (preprocess_train_subject plan rz reorient cc load imagepaths target_dir subject_id
        disable
        (preprocess_train_subject plan rz reorient cc load imagepaths target_dir subject_id
          disable fs).1).1
      = (preprocess_train_subject plan rz reorient cc load imagepaths target_dir subject_id
          disable fs).1 := by
  constructor
  · intro h1 h2
    unfold preprocess_train_subject
    dsimp only
    rw [h1, h2]
    simp
  · by_cases hf : (isfile fs (target_dir ++ "/" ++ subject_id ++ ".npy")
        && isfile fs (target_dir ++ "/" ++ subject_id ++ ".pkl")) = true
    · have hskip : preprocess_train_subject plan rz reorient cc load imagepaths target_dir
          subject_id disable fs = (fs, none) := by
        unfold preprocess_train_subject
        dsimp only
        rw [if_pos hf]
      rw [hskip]
      rw [hskip]
    · have hf' : (isfile fs (target_dir ++ "/" ++ subject_id ++ ".npy")
          && isfile fs (target_dir ++ "/" ++ subject_id ++ ".pkl")) = false := by
        simpa using hf
      cases hcore : preprocess_train_core plan rz reorient cc load imagepaths target_dir
          subject_id disable fs with
      | ok fs' =>
        have h1 : preprocess_train_subject plan rz reorient cc load imagepaths target_dir
            subject_id disable fs = (fs', none) := by
          unfold preprocess_train_subject
          dsimp only
          rw [hf']
          simp only [Bool.false_eq_true, if_false, hcore]
        obtain ⟨img0, irest, heq, imgsA, segA, oo, fd, hre, hlab, stacked, props, hfs, -⟩ :=
          train_core_ok _ _ _ _ _ _ _ _ _ _ _ hcore
        have ha : isfile fs' (target_dir ++ "/" ++ subject_id ++ ".npy") = true := by
          rw [hfs]
          simp [isfile, saveFile]
        have hp : isfile fs' (target_dir ++ "/" ++ subject_id ++ ".pkl") = true := by
          rw [hfs]
          simp [isfile, saveFile]
        have h2 : preprocess_train_subject plan rz reorient cc load imagepaths target_dir
            subject_id disable fs' = (fs', none) := by
          unfold preprocess_train_subject
          dsimp only
          rw [ha, hp]
          simp
        rw [h1, h2]
      | error e =>
        have h1 : preprocess_train_subject plan rz reorient cc load imagepaths target_dir
            subject_id disable fs = (fs, some e) := by
          unfold preprocess_train_subject
          dsimp only
          rw [hf']
          simp only [Bool.false_eq_true, if_false, hcore]
        rw [h1]
        dsimp only
        rw [h1]

/-- Witness for C8: a store already holding both artifacts for the case is
returned untouched. -/
theorem preprocess_train_idempotent_witness :
    preprocess_train_subject planT resizeOk reorientId ccZero loadT ["case_000"] "out"
      "case" false [("out/case.npy", .npy (zeros [])), ("out/case.pkl",
        .pkl ⟨[], "", none, [], [], "", [], [], "", [], 0, []⟩)]
      = ([("out/case.npy", .npy (zeros [])), ("out/case.pkl",
        .pkl ⟨[], "", none, [], [], "", [], [], "", [], 0, []⟩)], none) :=
  (preprocess_train_idempotent planT resizeOk reorientId ccZero loadT ["case_000"] "out"
    "case" false _).1 (by decide) (by decide)

theorem resizeCaught_resizeOverflow (o : List ℕ) (ord : ℕ) :
    resizeCaught resizeOverflow o ord = id := rfl

/-- C9 counterexample: a single-case inference run in which every resize call
raises `OverflowError` still returns `.ok` — the overflow is caught inside
`_resample_and_normalize_case` (lines 262-272) and only reported, so it is
not fatal for the case even in inference mode. -/
theorem inference_overflow_not_fatal :
    ∃ p, preprocess_case_for_inference planNC resizeOverflow reorientId [volNC] [2, 2]
      = .ok p :=
  ⟨(preprocess_case_for_inference planNC resizeOverflow reorientId [volNC]
      [2, 2]).toOption.getD (zeros [], emptyProps), rfl⟩

/-- C9 (amended): an overflow raised inside `resize` is caught and only
reported in `_resample_and_normalize_case` itself — the shared path used by
both training and inference — so whenever a resampling call would succeed,
the same call with an always-overflowing resize oracle also succeeds,
returning the normalized and transposed but unresampled arrays. -/
theorem resample_overflow_caught (plan : Plan) (images : List NDArr) (seg : Option NDArr)
    (nop : List String) (tp : List ℕ) (os ts : List ℚ) (out : List NDArr × Option NDArr)
    (h : resample_and_normalize_case plan resizeOk images seg nop tp os ts = .ok out) :
    ∃ imgsT : List NDArr,
      normTransposeList tp (zip3With (fun a b c => (a, b, c)) images nop plan.intensities)
        = .ok imgsT
      ∧ resample_and_normalize_case plan resizeOverflow images seg nop tp os ts
          = .ok (imgsT, seg.map (transposeArr tp)) := by
  obtain ⟨im0, restT, hT, ⟨hl1, hl2⟩, hg2, -, -⟩ :=
    resample_ok_inv _ _ _ _ _ _ _ _ _ h
  refine ⟨im0 :: restT, hT, ?_⟩
  have hc : (images.length == nop.length && nop.length == plan.intensities.length)
      = true := by
    rw [hl1, hl2]
    simp
  unfold resample_and_normalize_case
  rw [if_pos hc, hT, except_bind_ok]
  dsimp only
  rw [if_pos hg2]
  cases seg with
  | none =>
    dsimp only
    rw [resizeCaught_resizeOverflow, List.map_id]
    rfl
  | some s =>
    dsimp only
    rw [resizeCaught_resizeOverflow, List.map_id, resizeCaught_resizeOverflow]
    rfl

/-- Witness for C9 (amended): the concrete 2x2 resampling call that succeeds
with the working resize oracle also succeeds with the always-overflowing one. -/
theorem resample_overflow_caught_witness :
    ∃ imgsT : List NDArr,
      normTransposeList [0, 1] (zip3With (fun a b c => (a, b, c)) [onesArr [2, 2]]
        ["no_norm"] planT.intensities) = .ok imgsT
      ∧ resample_and_normalize_case planT resizeOverflow [onesArr [2, 2]]
          (some (onesArr [2, 2])) ["no_norm"] [0, 1] [1, 1] [2, 1]
          = .ok (imgsT, (some (onesArr [2, 2])).map (transposeArr [0, 1])) :=
  resample_overflow_caught planT [onesArr [2, 2]] (some (onesArr [2, 2])) ["no_norm"]
    [0, 1] [1, 1] [2, 1] rsC rfl

theorem set_append_singleton (l : List α) (c v : α) :
    (l ++ [c]).set l.length v = l ++ [v] := by
  induction l with
  | nil => rfl
  | cons x xs ih => simp only [List.cons_append, List.length_cons, List.set_cons_succ, ih]

/-- A property preserved by every successful step of a monadic fold over
`Except` holds of every successful fold result. -/
theorem foldlM_except_inv (P : σ → Prop) (f : σ → α → Except ε σ)
    (hstep : ∀ s a s2, P s → f s a = .ok s2 → P s2) :
    ∀ (l : List α) (s s2 : σ), P s → l.foldlM f s = .ok s2 → P s2
  | [], s, s2, hs, h => by
    rw [List.foldlM_nil] at h
    cases h
    exact hs
  | a :: l, s, s2, hs, h => by
    rw [List.foldlM_cons] at h
    cases hf : f s a with
    | error e =>
      rw [hf, except_bind_error] at h
      cases h
    | ok s1 =>
      rw [hf, except_bind_ok] at h
      exact foldlM_except_inv P f hstep l s1 s2 (hstep s a s1 hs hf) h

/-- C10: `reverse_preprocessing` does not mutate its inputs.  In the
store-passing rendering, the output store is the input store extended by
exactly one freshly allocated cell — the canvas — so the predictions array
(and every other pre-existing cell, in particular anything holding the
`image_properties` record entries) is unchanged, and the returned index
refers to the new cell, which shares no storage with the input. -/
theorem reverse_preprocessing_store_frame (plan : Plan) (rz : ResizeImpl) (st : Store)
    (predsIdx : ℕ) (props : ImageProperties) :
    (∃ cv : NDArr, (reverse_preprocessing_store plan rz st predsIdx props).1 = st ++ [cv])
    ∧ ((reverse_preprocessing_store plan rz st predsIdx props).2 = .ok st.length
       ∨ ∃ e, (reverse_preprocessing_store plan rz st predsIdx props).2 = .error e) := by
  unfold reverse_preprocessing_store
  dsimp only
  split
  · rename_i st2 hres
    have hinner : ∀ (b : ℕ) (cur : Store) (c : ℕ) (s2 : Store),
        (∃ cv, cur = st ++ [cv]) →
        (processChannel plan rz props (channelAt (st.getD predsIdx (zeros [])) b c) >>=
          fun img => Except.map (fun cv => cur.set st.length cv)
            (maybeReseat plan props (cur.getD st.length (zeros [])) b c img)) = .ok s2 →
        ∃ cv, s2 = st ++ [cv] := by
      intro b cur c s2 hP hone
      obtain ⟨cv, hcur⟩ := hP
      cases hp : processChannel plan rz props (channelAt (st.getD predsIdx (zeros [])) b c)
        with
      | error e =>
        rw [hp, except_bind_error] at hone
        cases hone
      | ok img =>
        rw [hp, except_bind_ok] at hone
        cases hm : maybeReseat plan props (cur.getD st.length (zeros [])) b c img with
        | error e =>
          rw [hm] at hone
          replace hone : (Except.error e : Except String Store) = .ok s2 := hone
          cases hone
        | ok cv2 =>
          rw [hm] at hone
          replace hone : (Except.ok (cur.set st.length cv2) : Except String Store)
              = .ok s2 := hone
          cases hone
          exact ⟨cv2, by rw [hcur, set_append_singleton]⟩
    have houter : ∀ (s : Store) (b : ℕ) (s2 : Store), (∃ cv, s = st ++ [cv]) →
        (List.range ((st.getD predsIdx (zeros [])).shape.getD 1 0)).foldlM
          (fun cur c =>
            processChannel plan rz props (channelAt (st.getD predsIdx (zeros [])) b c) >>=
              fun img => Except.map (fun cv => cur.set st.length cv)
                (maybeReseat plan props (cur.getD st.length (zeros [])) b c img)) s
          = .ok s2 →
        ∃ cv, s2 = st ++ [cv] := by
      intro s b s2 hP hfold
      exact foldlM_except_inv _ _ (fun cur c s3 hc hd => hinner b cur c s3 hc hd) _ _ _
        hP hfold
    refine ⟨?_, Or.inl rfl⟩
    exact foldlM_except_inv _ _ houter _ _ _
      ⟨zeros (1 :: plan.classes.length :: props.uncropped_shape), rfl⟩ hres
  · rename_i e hres
    exact ⟨⟨zeros (1 :: plan.classes.length :: props.uncropped_shape), rfl⟩,
      Or.inr ⟨e, rfl⟩⟩

end Yucca
